import Mathlib

/-!
Access-control store: subjects, letters and grants.

A shallow embedding of `database/database.go` (the relation store over three
SQLite tables) and of the bulk handlers of `admin/main.go`.

Modelling conventions.

* A `DB` value is the logical content of the three tables, rows kept in rowid
  order, together with the two `sqlite_sequence` counters kept by
  `AUTOINCREMENT`.
* Every SQL statement of the source is modelled by its logical effect on the
  tables. Failures of the storage layer itself (I/O errors, a closed handle,
  rowid exhaustion) are not part of the model; the only errors a statement can
  produce here are the ones SQL defines on well-formed input: `sql.ErrNoRows`
  from `QueryRow(..).Scan`, and a `UNIQUE` violation from a plain `UPDATE`.
* The schema declares `FOREIGN KEY` clauses, but the connection is opened from
  a plain file name, so SQLite does not enforce them; `INSERT` into
  `user_letters` therefore accepts any pair of integers.
* Go `int` identifiers are `Int`; a Go `rune` obtained by ranging over a string
  is a `Char`; `string(r)` is `String.singleton r`.
-/

namespace database

/-- Errors a call of the package can return in the model. -/
inductive Error where
  /-- The value `sql.ErrNoRows`. -/
  | ErrNoRows
  /-- The error built by `fmt.Errorf` in `UpdateLetter` when the letter is taken. -/
  | LetterExists (newLetterStr : String)
  /-- A `UNIQUE constraint failed` error reported by the engine. -/
  | Constraint (column : String)
  deriving DecidableEq

deriving instance DecidableEq for Except

/-- One row of table `users (id INTEGER PRIMARY KEY AUTOINCREMENT, name TEXT NOT NULL UNIQUE)`. -/
structure UserRow where
  id : Int
  name : String
  deriving DecidableEq

/-- One row of table `letters (id INTEGER PRIMARY KEY AUTOINCREMENT, char TEXT NOT NULL UNIQUE)`. -/
structure LetterRow where
  id : Int
  char : String
  deriving DecidableEq

/-- One row of table `user_letters (user_id, letter_id, PRIMARY KEY (user_id, letter_id))`. -/
structure GrantRow where
  user_id : Int
  letter_id : Int
  deriving DecidableEq

/-- The persisted state behind a `*sql.DB` handle. -/
structure DB where
  users : List UserRow
  letters : List LetterRow
  user_letters : List GrantRow
  /-- The `sqlite_sequence` counter of table `users`. -/
  users_seq : Int
  /-- The `sqlite_sequence` counter of table `letters`. -/
  letters_seq : Int
  deriving DecidableEq

/-- The text `err.Error()` (what `%v` prints for an error). -/
def Error.text : Error → String
  | .ErrNoRows => "sql: no rows in result set"
  | .LetterExists newLetterStr => "буква '" ++ newLetterStr ++ "' уже существует в базе данных"
  | .Constraint column => "constraint failed: UNIQUE constraint failed: " ++ column ++ " (2067)"

/-- Largest rowid in a table, `0` for an empty table. -/
def maxRowid : List Int → Int
  | [] => 0
  | i :: is => max i (maxRowid is)

/-- The rowid `AUTOINCREMENT` hands out: one more than the larger of the counter
and the largest rowid present. -/
def newRowid (seq : Int) (ids : List Int) : Int :=
  max seq (maxRowid ids) + 1

/-! ### The SQL statements of the package -/

/-- Statement `INSERT OR IGNORE INTO users (name) VALUES (?)`. The rowid is drawn
(and the counter advanced) before the `UNIQUE` check, so an ignored insert still
advances the counter. -/
def execInsertOrIgnoreUser (db : DB) (name : String) : Option Error × DB :=
  let rowid := newRowid db.users_seq (db.users.map (·.id))
  if db.users.any (fun u => u.name = name) then
    (none, { db with users_seq := rowid })
  else
    (none, { db with users := db.users ++ [⟨rowid, name⟩], users_seq := rowid })

/-- Statement `INSERT OR IGNORE INTO letters (char) VALUES (?)`. -/
def execInsertOrIgnoreLetter (db : DB) (letterStr : String) : Option Error × DB :=
  let rowid := newRowid db.letters_seq (db.letters.map (·.id))
  if db.letters.any (fun l => l.char = letterStr) then
    (none, { db with letters_seq := rowid })
  else
    (none, { db with letters := db.letters ++ [⟨rowid, letterStr⟩], letters_seq := rowid })

/-- Statement `INSERT OR IGNORE INTO user_letters (user_id, letter_id) VALUES (?, ?)`. -/
def execInsertOrIgnoreGrant (db : DB) (UserID LetterID : Int) : Option Error × DB :=
  if db.user_letters.any (fun g => g.user_id = UserID ∧ g.letter_id = LetterID) then
    (none, db)
  else
    (none, { db with user_letters := db.user_letters ++ [⟨UserID, LetterID⟩] })

/-- Statement `DELETE FROM user_letters WHERE user_id = ? AND letter_id = ?`. -/
def execDeleteGrant (db : DB) (UserID LetterID : Int) : Option Error × DB :=
  let rows := db.user_letters.filter (fun g => ¬ (g.user_id = UserID ∧ g.letter_id = LetterID))
  (none, { db with user_letters := rows })

/-- Statement `DELETE FROM user_letters WHERE user_id = ?`. -/
def execDeleteGrantsOfUser (db : DB) (userID : Int) : Option Error × DB :=
  let rows := db.user_letters.filter (fun g => ¬ g.user_id = userID)
  (none, { db with user_letters := rows })

/-- Statement `DELETE FROM users WHERE id = ?`. -/
def execDeleteUserRow (db : DB) (userID : Int) : Option Error × DB :=
  let rows := db.users.filter (fun u => ¬ u.id = userID)
  (none, { db with users := rows })

/-- Statement `UPDATE letters SET char = ? WHERE id = ?`: fails on a `UNIQUE`
violation, otherwise rewrites the matching row (if any). -/
def execUpdateLetterChar (db : DB) (newLetterStr : String) (letterID : Int) :
    Option Error × DB :=
  if db.letters.any (fun l => l.id = letterID) ∧
      db.letters.any (fun l => l.char = newLetterStr ∧ ¬ l.id = letterID) then
    (some (.Constraint "letters.char"), db)
  else
    let rows := db.letters.map
      (fun l => if l.id = letterID then LetterRow.mk l.id newLetterStr else l)
    (none, { db with letters := rows })

/-- Query `SELECT id FROM users WHERE name = ?` read by `QueryRow(..).Scan(&id)`. -/
def queryUserId (db : DB) (userName : String) : Except Error Int :=
  match db.users.find? (fun u => u.name = userName) with
  | some u => .ok u.id
  | none => .error .ErrNoRows

/-- Query `SELECT id FROM letters WHERE char = ?` read by `QueryRow(..).Scan(&id)`. -/
def queryLetterId (db : DB) (letterStr : String) : Except Error Int :=
  match db.letters.find? (fun l => l.char = letterStr) with
  | some l => .ok l.id
  | none => .error .ErrNoRows

/-- Query `SELECT l.char FROM letters l JOIN user_letters ul ON l.id = ul.letter_id
WHERE ul.user_id = ?`. SQL fixes the rows, not their order; the order used here is
that of a scan of `user_letters` with a lookup in `letters`. -/
def queryPermissions (db : DB) (UserID : Int) : Except Error (List String) :=
  .ok ((db.user_letters.filter (fun ul => ul.user_id = UserID)).flatMap fun ul =>
    (db.letters.filter (fun l => l.id = ul.letter_id)).map (·.char))

/-! ### The functions of `database.go` -/

def GetUserID (db : DB) (userName : String) : Except Error Int :=
  queryUserId db userName

def Grant (db : DB) (UserID : Int) (LetterID : Int) : Option Error × DB :=
  execInsertOrIgnoreGrant db UserID LetterID

def GetLetterID (db : DB) (letterChar : Char) : Except Error Int :=
  let letterStr := String.singleton letterChar
  queryLetterId db letterStr

def CreateUser (db : DB) (name : String) : Except Error Int × DB :=
  match execInsertOrIgnoreUser db name with
  | (some err, db1) => (.error err, db1)
  | (none, db1) => (GetUserID db1 name, db1)

def CreateLetter (db : DB) (letter : Char) : Except Error Int × DB :=
  let letterStr := String.singleton letter
  match execInsertOrIgnoreLetter db letterStr with
  | (some err, db1) => (.error err, db1)
  | (none, db1) => (GetLetterID db1 letter, db1)

/-- The loop `for _, letter := range letters` of `Create`. -/
def Create.loop (UserID : Int) : DB → List Char → Option Error × DB
  | db, [] => (none, db)
  | db, letter :: letters =>
    match CreateLetter db letter with
    | (.error err, db1) => (some err, db1)
    | (.ok LetterID, db1) =>
      match Grant db1 UserID LetterID with
      | (some err, db2) => (some err, db2)
      | (none, db2) => Create.loop UserID db2 letters

def Create (db : DB) (name : String) (letters : List Char) : Option Error × DB :=
  match CreateUser db name with
  | (.error err, db1) => (some err, db1)
  | (.ok UserID, db1) => Create.loop UserID db1 letters

def Remove (db : DB) (UserID : Int) (LetterID : Int) : Option Error × DB :=
  execDeleteGrant db UserID LetterID

def FindUser (db : DB) (userName : String) : Except Error Int :=
  match queryUserId db userName with
  | .error err => .error err
  | .ok id => .ok id

def GetPermissions (db : DB) (UserID : Int) : Except Error (List String) :=
  match queryPermissions db UserID with
  | .error err => .error err
  | .ok letters => .ok letters

def GetAllUsers (db : DB) : Except Error (List String) :=
  .ok (db.users.map (·.name))

def GetAllLetters (db : DB) : Except Error (List String) :=
  .ok (db.letters.map (·.char))

def DeleteUser (db : DB) (userID : Int) : Option Error × DB :=
  match execDeleteGrantsOfUser db userID with
  | (some err, db1) => (some err, db1)
  | (none, db1) => execDeleteUserRow db1 userID

def EnsureLetterExists (db : DB) (letter : Char) : Except Error Int × DB :=
  let letterStr := String.singleton letter
  match queryLetterId db letterStr with
  | .error _ => CreateLetter db letter
  | .ok id => (.ok id, db)

def UpdateLetter (db : DB) (letterID : Int) (newLetter : Char) : Option Error × DB :=
  let newLetterStr := String.singleton newLetter
  match queryLetterId db newLetterStr with
  | .ok existingID =>
    if existingID = letterID then
      (none, db)
    else
      (some (.LetterExists newLetterStr), db)
  | .error .ErrNoRows =>
    match execUpdateLetterChar db newLetterStr letterID with
    | (some err, db1) => (some err, db1)
    | (none, db1) => (none, db1)
  | .error err => (some err, db)

/-! ### Schema constraints -/

/-- The constraints the engine enforces on every state: the two primary keys, the
two `UNIQUE` columns and the composite primary key of `user_letters`. -/
structure DB.Constraints (db : DB) : Prop where
  users_id : (db.users.map (·.id)).Nodup
  users_name : (db.users.map (·.name)).Nodup
  letters_id : (db.letters.map (·.id)).Nodup
  letters_char : (db.letters.map (·.char)).Nodup
  user_letters_pk : db.user_letters.Nodup

/-- Referential integrity as declared by the two `FOREIGN KEY` clauses: every grant
row names a live subject and a live letter. -/
structure DB.Referential (db : DB) : Prop where
  user_fk : ∀ g ∈ db.user_letters, g.user_id ∈ db.users.map (·.id)
  letter_fk : ∀ g ∈ db.user_letters, g.letter_id ∈ db.letters.map (·.id)

/-- The largest subject id the store has handed out so far: `AUTOINCREMENT` assigns
the next subject the id one above it. -/
def userBound (db : DB) : Int :=
  max db.users_seq (maxRowid (db.users.map (·.id)))

/-- The largest letter id the store has handed out so far. -/
def letterBound (db : DB) : Int :=
  max db.letters_seq (maxRowid (db.letters.map (·.id)))

/-- No grant row names an id that its table has yet to hand out. A row that names a
live subject and a live letter satisfies this, and so does a row left behind for an
id that was handed out and deleted; a row naming a later id would be inherited by
the subject or letter that is created with that id. -/
structure DB.RefsAssigned (db : DB) : Prop where
  user_ref : ∀ g ∈ db.user_letters, g.user_id ≤ userBound db
  letter_ref : ∀ g ∈ db.user_letters, g.letter_id ≤ letterBound db

/-- The pair `(UserID, LetterID)` is a row of `user_letters`. -/
def DB.granted (db : DB) (UserID LetterID : Int) : Prop :=
  (⟨UserID, LetterID⟩ : GrantRow) ∈ db.user_letters

instance (db : DB) (UserID LetterID : Int) : Decidable (db.granted UserID LetterID) :=
  inferInstanceAs (Decidable (_ ∈ _))

/-- Sample state: subjects alice (1) and bob (2), letters A (1) and B (2), alice holds A. -/
def sampleDB : DB :=
  { users := [⟨1, "alice"⟩, ⟨2, "bob"⟩]
    letters := [⟨1, "A"⟩, ⟨2, "B"⟩]
    user_letters := [⟨1, 1⟩]
    users_seq := 2
    letters_seq := 2 }

/-- The store before anything was created. -/
def emptyDB : DB :=
  { users := [], letters := [], user_letters := [], users_seq := 0, letters_seq := 0 }

/-- A store reached through the package alone: letter A is created in the empty store
and `Grant` is then called with subject id 1, which no subject has yet. -/
def orphanDB : DB :=
  (Grant (EnsureLetterExists emptyDB 'A').2 1 1).2

/-- A store reached through the package alone: subject alice is created in the empty
store and `Grant` is then called with letter id 1, which no letter has yet. -/
def letterOrphanDB : DB :=
  (Grant (CreateUser emptyDB "alice").2 1 1).2

/-- A store with a grant row left behind for subject id 1, which was handed out and
deleted: bob has id 2 and letter A has id 1. -/
def pastOrphanDB : DB :=
  { users := [⟨2, "bob"⟩]
    letters := [⟨1, "A"⟩]
    user_letters := [⟨1, 1⟩]
    users_seq := 2
    letters_seq := 1 }

/-! ### Predicates used to state and prove the properties -/

/-- The letter table after an ensure-exists step: either unchanged with `lid` the id
of a letter holding `c`, or extended by one row `(lid, c)` with a new id. -/
def LettersGrow (db db1 : DB) (lid : Int) (c : String) : Prop :=
  db1.users = db.users ∧ db1.user_letters = db.user_letters ∧
  db1.users_seq = db.users_seq ∧ letterBound db ≤ letterBound db1 ∧
  ((db1.letters = db.letters ∧ (⟨lid, c⟩ : LetterRow) ∈ db.letters) ∨
   (db1.letters = db.letters ++ [⟨lid, c⟩] ∧ lid ∉ db.letters.map (·.id) ∧
     letterBound db < lid))

/-- Subject `j` holds the character `s`: some grant row of `j` joins a letter row
whose character is `s` (the rows `GetPermissions` returns). -/
def holdsIn (letters : List LetterRow) (grants : List GrantRow) (j : Int) (s : String) : Prop :=
  ∃ g ∈ grants, g.user_id = j ∧ ∃ l ∈ letters, l.id = g.letter_id ∧ l.char = s

/-- The part of the schema the grant steps rely on: unique ids and no grant row
naming an id that is yet to be handed out. -/
structure DB.Sound (db : DB) : Prop where
  users_id : (db.users.map (·.id)).Nodup
  letters_id : (db.letters.map (·.id)).Nodup
  user_ref : ∀ g ∈ db.user_letters, g.user_id ≤ userBound db
  letter_ref : ∀ g ∈ db.user_letters, g.letter_id ≤ letterBound db

/-- One pass of a letter loop body: the letter is ensured, then the pair is granted. -/
def GrantStep (uid : Int) (c : String) (db db2 : DB) : Prop :=
  ∃ lid db1, LettersGrow db db1 lid c ∧ db2.users = db1.users ∧ db2.letters = db1.letters ∧
    db2.users_seq = db1.users_seq ∧ db2.letters_seq = db1.letters_seq ∧
    ((db2.user_letters = db1.user_letters ∧ (⟨uid, lid⟩ : GrantRow) ∈ db1.user_letters) ∨
      db2.user_letters = db1.user_letters ++ [⟨uid, lid⟩])

/-- A run of grant steps, one per character of the list. -/
inductive GrantSteps (uid : Int) : DB → List Char → DB → Prop where
  | nil (db : DB) : GrantSteps uid db [] db
  | cons {db db2 db3 : DB} {r : Char} {rs : List Char} :
    GrantStep uid (String.singleton r) db db2 → GrantSteps uid db2 rs db3 →
    GrantSteps uid db (r :: rs) db3

end database

/-! ## Library functions used by the admin handlers -/

namespace unicode

/-- Go `unicode.IsSpace`: the code points with the Unicode White_Space property. -/
def IsSpace (r : Char) : Bool :=
  r = '\t' || r = '\n' || r = '\x0b' || r = '\x0c' || r = '\r' || r = ' ' ||
  r.toNat = 0x85 || r.toNat = 0xa0 || r.toNat = 0x1680 ||
  (0x2000 ≤ r.toNat && r.toNat ≤ 0x200a) ||
  r.toNat = 0x2028 || r.toNat = 0x2029 || r.toNat = 0x202f || r.toNat = 0x205f ||
  r.toNat = 0x3000

/-- The letters of the Latin-1 range (what Go reads from its `properties` table). -/
def latin1Letter (r : Char) : Bool :=
  ('A' ≤ r && r ≤ 'Z') || ('a' ≤ r && r ≤ 'z') ||
  r.toNat = 0xaa || r.toNat = 0xb5 || r.toNat = 0xba ||
  (0xc0 ≤ r.toNat && r.toNat ≤ 0xd6) || (0xd8 ≤ r.toNat && r.toNat ≤ 0xf6) ||
  (0xf8 ≤ r.toNat && r.toNat ≤ 0xff)

/-- Go `unicode.IsLetter`. Code points up to U+00FF are decided by the Latin-1
properties; above that Go searches its range table of category L, which is taken
here as the parameter `letterTable`. -/
def IsLetter (letterTable : Char → Bool) (r : Char) : Bool :=
  if r.toNat ≤ 0xff then latin1Letter r else letterTable r

/-- A stand-in for the range table above Latin-1 that knows the basic Cyrillic block. -/
def cyrillicTable (r : Char) : Bool :=
  0x410 ≤ r.toNat && r.toNat ≤ 0x44f

end unicode

namespace strings

/-- Pieces of a character list between occurrences of `sep`. -/
def splitChars (sep : Char) : List Char → List (List Char)
  | [] => [[]]
  | c :: cs =>
    if c = sep then
      [] :: splitChars sep cs
    else
      match splitChars sep cs with
      | [] => [[c]]
      | piece :: pieces => (c :: piece) :: pieces

/-- Go `strings.Split(s, sep)` for a separator of one character. -/
def Split (s : String) (sep : Char) : List String :=
  (splitChars sep s.toList).map String.mk

/-- Go `strings.TrimSpace`: leading and trailing white space removed. -/
def TrimSpace (s : String) : String :=
  String.mk ((s.toList.dropWhile unicode.IsSpace).reverse.dropWhile unicode.IsSpace).reverse

end strings

/-! ## The bulk handlers of `admin/main.go` -/

namespace admin

open database

def parseLetters (input : String) : List Char :=
  if input ≠ "" then
    input.toList.filter
      (fun char => char ≠ ' ' && char ≠ ',' && char ≠ ';' && char ≠ '\n' && char ≠ '\t')
  else
    []

def parseUsers (input : String) : List String :=
  let lines := strings.Split input '\n'
  lines.filterMap fun line =>
    let trimmed := strings.TrimSpace line
    if trimmed ≠ "" then some trimmed else none

/-- The variables the loop of the grant-or-create handler updates. -/
structure GrantAddState where
  db : DB
  createdCount : Nat
  grantedCount : Nat
  errorMessages : List String
  deriving DecidableEq

/-- The loop `for _, r := range letterRunes` run for a subject that was found; the
result carries the store, `grantedForUser` and the failure list. -/
def bulkGrantAddBtn.letters (user : String) (userID : Int) :
    List Char → DB → Bool → List String → DB × Bool × List String
  | [], db, grantedForUser, errorMessages => (db, grantedForUser, errorMessages)
  | r :: rs, db, grantedForUser, errorMessages =>
    match EnsureLetterExists db r with
    | (.error errEnsure, db1) =>
      bulkGrantAddBtn.letters user userID rs db1 grantedForUser
        (errorMessages ++
          ["Ошибка (EnsureLetter) для \'" ++ user ++ "\': " ++ errEnsure.text])
    | (.ok letterID, db1) =>
      match Grant db1 userID letterID with
      | (some _, db2) => bulkGrantAddBtn.letters user userID rs db2 grantedForUser errorMessages
      | (none, db2) => bulkGrantAddBtn.letters user userID rs db2 true errorMessages

/-- The loop `for _, user := range users` of the grant-or-create handler. -/
def bulkGrantAddBtn.loop (letterRunes : List Char) : List String → GrantAddState → GrantAddState
  | [], st => st
  | user :: users, st =>
    match FindUser st.db user with
    | .error _ =>
      match Create st.db user letterRunes with
      | (some errCreate, db1) =>
        bulkGrantAddBtn.loop letterRunes users
          { st with
            db := db1
            errorMessages := st.errorMessages ++
              ["Ошибка создания \'" ++ user ++ "\': " ++ errCreate.text] }
      | (none, db1) =>
        bulkGrantAddBtn.loop letterRunes users
          { st with db := db1, createdCount := st.createdCount + 1 }
    | .ok userID =>
      match bulkGrantAddBtn.letters user userID letterRunes st.db false st.errorMessages with
      | (db1, grantedForUser, errorMessages) =>
        bulkGrantAddBtn.loop letterRunes users
          { st with
            db := db1
            grantedCount := if grantedForUser then st.grantedCount + 1 else st.grantedCount
            errorMessages := errorMessages }

/-- The grant-or-create loop started on a store with zero counters and no failures. -/
def bulkGrantAdd (db : DB) (users : List String) (letterRunes : List Char) : GrantAddState :=
  bulkGrantAddBtn.loop letterRunes users ⟨db, 0, 0, []⟩

/-- The variables the loop of the bulk-revoke handler updates. -/
structure RemoveRightsState where
  db : DB
  removedCount : Nat
  errorMessages : List String
  deriving DecidableEq

/-- The loop `for _, r := range letterRunes` of the bulk-revoke handler; the result
carries the store and `removedForUser`. -/
def bulkRemoveRightsBtn.letters (userID : Int) : List Char → DB → Bool → DB × Bool
  | [], db, removedForUser => (db, removedForUser)
  | r :: rs, db, removedForUser =>
    match GetLetterID db r with
    | .error _ => bulkRemoveRightsBtn.letters userID rs db removedForUser
    | .ok letterID =>
      match Remove db userID letterID with
      | (some _, db1) => bulkRemoveRightsBtn.letters userID rs db1 removedForUser
      | (none, db1) => bulkRemoveRightsBtn.letters userID rs db1 true

/-- The loop `for _, user := range users` of the bulk-revoke handler. -/
def bulkRemoveRightsBtn.loop (letterRunes : List Char) :
    List String → RemoveRightsState → RemoveRightsState
  | [], st => st
  | user :: users, st =>
    match FindUser st.db user with
    | .error _ =>
      bulkRemoveRightsBtn.loop letterRunes users
        { st with
          errorMessages := st.errorMessages ++
            ["Ошибка: пользователь \'" ++ user ++ "\' не найден."] }
    | .ok userID =>
      match bulkRemoveRightsBtn.letters userID letterRunes st.db false with
      | (db1, removedForUser) =>
        bulkRemoveRightsBtn.loop letterRunes users
          { st with
            db := db1
            removedCount := if removedForUser then st.removedCount + 1 else st.removedCount }

/-- The bulk-revoke loop started on a store with a zero counter and no failures. -/
def bulkRemoveRights (db : DB) (users : List String) (letterRunes : List Char) :
    RemoveRightsState :=
  bulkRemoveRightsBtn.loop letterRunes users ⟨db, 0, []⟩

/-- The name resolves to a subject id in the store. -/
def resolves (db : DB) (userName : String) : Bool :=
  match FindUser db userName with
  | .ok _ => true
  | .error _ => false

/-- The store `Create` starts its letter loop from, for a name that does not resolve. -/
def withNewUser (db : DB) (name : String) : DB :=
  { db with
    users := db.users ++ [⟨newRowid db.users_seq (db.users.map (·.id)), name⟩]
    users_seq := newRowid db.users_seq (db.users.map (·.id)) }

/-- Store of the worked example: alice exists, bob does not, no letter yet. -/
def aliceDB : DB :=
  { users := [⟨1, "alice"⟩], letters := [], user_letters := [], users_seq := 1, letters_seq := 0 }

/-- The character is a letter of the store (`GetLetterID` finds it). -/
def letterKnown (db : DB) (r : Char) : Bool :=
  match GetLetterID db r with
  | .ok _ => true
  | .error _ => false

/-- The pair (subject name, character) is granted: the name resolves and the
character is among the permissions read for its id. -/
def isGranted (db : DB) (user : String) (r : Char) : Bool :=
  match FindUser db user with
  | .ok userID =>
    match GetPermissions db userID with
    | .ok permissions => permissions.contains (String.singleton r)
    | .error _ => false
  | .error _ => false

/-- Some listed pair of the subject was granted in `before` and is not in `after`. -/
def hadGrantRemoved (before after : DB) (letterRunes : List Char) (user : String) : Bool :=
  letterRunes.any fun r => isGranted before user r && !isGranted after user r

/-- The allow-set of a subject name: the permissions read for the id the name
resolves to, and nothing when the name does not resolve. -/
def allowSet (db : DB) (userName : String) : List String :=
  match FindUser db userName with
  | .ok userID =>
    match GetPermissions db userID with
    | .ok permissions => permissions
    | .error _ => []
  | .error _ => []

/-- The dialog text of a failed validation (`fmt.Errorf`), or `none` for `nil`. -/
abbrev ValidationError := Option String

def validateLetters (letterTable : Char → Bool) (input : String) : ValidationError :=
  if input.toList.all
      (fun char => !(char ≠ ' ' && char ≠ ',' && char ≠ ';' &&
        !unicode.IsLetter letterTable char)) then
    none
  else
    some "можно вводить только буквы и разделители (пробел, \',\', \';\')"

/-- The loop `for _, line := range lines` of `validateUserList`; `len(trimmed)` is
the length in bytes. -/
def validateUserList.loop : List String → ValidationError
  | [] => none
  | line :: lines =>
    let trimmed := strings.TrimSpace line
    if trimmed = "" then
      validateUserList.loop lines
    else if trimmed.utf8ByteSize > 256 then
      some ("имя \'" ++ trimmed ++ "\' не может быть длиннее 256 символов")
    else
      validateUserList.loop lines

def validateUserList (input : String) : ValidationError :=
  let lines := strings.Split input '\n'
  validateUserList.loop lines

/-- Importance values the matrix assigns to a label. -/
inductive Importance where
  | HighImportance
  | MediumImportance
  | DangerImportance
  | SuccessImportance
  | WarningImportance
  deriving DecidableEq

/-- What the cell callback does to a label: the text it sets and the importance it
assigns (`none` when it leaves the importance alone). -/
structure CellLabel where
  text : String
  importance : Option Importance
  deriving DecidableEq

/-- The cell update callback of `createUserTable`. `users` and `letters` are the
listings taken when the table was built; the two store reads made for a data cell
are the parameters `findUser` and `getPermissions`, so that a failing read can be
expressed. Cell coordinates are never negative. -/
def createUserTable.updateWith (findUser : String → Except Error Int)
    (getPermissions : Int → Except Error (List String))
    (users letters : List String) (Row Col : Nat) : CellLabel :=
  if Row = 0 ∧ Col = 0 then
    ⟨"Пользователь \\ Буква", some .HighImportance⟩
  else if Row = 0 then
    match letters[Col - 1]? with
    | some letter => ⟨letter, some .HighImportance⟩
    | none => ⟨"", none⟩
  else if Col = 0 then
    match users[Row - 1]? with
    | some userName => ⟨userName, some .MediumImportance⟩
    | none => ⟨"", none⟩
  else
    match users[Row - 1]?, letters[Col - 1]? with
    | some userName, some letter =>
      match findUser userName with
      | .error _ => ⟨"❌", some .DangerImportance⟩
      | .ok userID =>
        match getPermissions userID with
        | .error _ => ⟨"❌", some .DangerImportance⟩
        | .ok permissions =>
          let hasAccess := permissions.any (fun perm => perm = letter)
          if hasAccess then
            ⟨"✓", some .SuccessImportance⟩
          else
            ⟨"✗", some .WarningImportance⟩
    | _, _ => ⟨"", none⟩

/-- The cell update callback reading the store. -/
def createUserTable.update (db : DB) (users letters : List String) (Row Col : Nat) :
    CellLabel :=
  createUserTable.updateWith (FindUser db) (GetPermissions db) users letters Row Col

/-- The handler `table.OnSelected`. The result is `none` when the handler panics
(`[]rune(letter)[0]` on an empty string), otherwise the error shown in a dialog, if
any, and the store. Cell coordinates are never negative. -/
def OnSelected (db : DB) (Row Col : Nat) : Option (Option Error × DB) :=
  if Row > 0 ∧ Col > 0 then
    match GetAllUsers db with
    | .error err => some (some err, db)
    | .ok users =>
      match GetAllLetters db with
      | .error err => some (some err, db)
      | .ok letters =>
        match users[Row - 1]?, letters[Col - 1]? with
        | some userName, some letter =>
          match letter.toList with
          | [] => none
          | letterRune :: _ =>
            match FindUser db userName with
            | .error err => some (some err, db)
            | .ok userID =>
              match EnsureLetterExists db letterRune with
              | (.error err, db1) => some (some err, db1)
              | (.ok letterID, db1) =>
                match GetPermissions db1 userID with
                | .error err => some (some err, db1)
                | .ok permissions =>
                  let hasAccess := permissions.any (fun perm => perm = letter)
                  if hasAccess then
                    some (Remove db1 userID letterID)
                  else
                    some (Grant db1 userID letterID)
        | _, _ => some (none, db)
  else
    some (none, db)

/-- The variables the loop of the bulk-delete handler updates. -/
structure DeleteState where
  db : DB
  successCount : Nat
  errorMessages : List String
  deriving DecidableEq

/-- The loop `for _, user := range usersToDelete` run after the confirmation. -/
def bulkDeleteBtn.loop : List String → DeleteState → DeleteState
  | [], st => st
  | user :: users, st =>
    match FindUser st.db user with
    | .error err =>
      bulkDeleteBtn.loop users
        { st with
          errorMessages := st.errorMessages ++
            ["Ошибка поиска ID для \'" ++ user ++ "\': " ++ err.text] }
    | .ok userID =>
      match DeleteUser st.db userID with
      | (some err, db1) =>
        bulkDeleteBtn.loop users
          { st with
            db := db1
            errorMessages := st.errorMessages ++
              ["Ошибка удаления \'" ++ user ++ "\': " ++ err.text] }
      | (none, db1) =>
        bulkDeleteBtn.loop users { st with db := db1, successCount := st.successCount + 1 }

/-- The bulk-delete loop started on a store with a zero counter and no failures. -/
def bulkDelete (db : DB) (usersToDelete : List String) : DeleteState :=
  bulkDeleteBtn.loop usersToDelete ⟨db, 0, []⟩

/-- A single line of 129 Cyrillic letters: 129 characters, 258 bytes. -/
def cyrillicLine : String :=
  String.mk (List.replicate 129 'я')

end admin

/-! ## The text processor of `userapp/main.go` -/

namespace userapp

open database

/-- The fields of `TextProcessor` the synchronizer and the filter work on. The map
`accessRights` only ever receives the value `true`, so it is the set of its keys. -/
structure TextProcessor where
  currentUser : Int
  username : String
  accessRights : Finset Char
  deriving DecidableEq

/-- The body of `loadAccessRights` once `database.GetPermissions` has answered. -/
def loadAccessRightsWith (fetched : Except Error (List String)) (tp : TextProcessor) :
    TextProcessor :=
  match fetched with
  | .error _ => tp
  | .ok rights =>
    { tp with
      accessRights := rights.foldl
        (fun accessRights right =>
          if right.utf8ByteSize > 0 then
            match right.toList with
            | char :: _ => insert char accessRights
            | [] => accessRights
          else
            accessRights) ∅ }

def loadAccessRights (db : DB) (tp : TextProcessor) : TextProcessor :=
  loadAccessRightsWith (GetPermissions db tp.currentUser) tp

/-- One run of the timer callback of `initAutoRefresh`, up to the rescheduling: the
processor after the reload and the number of calls of `updateInterface`. -/
def initAutoRefresh.tickWith (fetched : Except Error (List String)) (tp : TextProcessor) :
    TextProcessor × Nat :=
  let previousRights := tp.accessRights
  let tp1 := loadAccessRightsWith fetched tp
  let modified :=
    tp1.accessRights.card ≠ previousRights.card ||
      decide (∃ char ∈ tp1.accessRights, char ∉ previousRights)
  if modified then (tp1, 1) else (tp1, 0)

/-- One run of the timer callback reading the store. -/
def initAutoRefresh.tick (db : DB) (tp : TextProcessor) : TextProcessor × Nat :=
  initAutoRefresh.tickWith (GetPermissions db tp.currentUser) tp

def applyFilter (tp : TextProcessor) (input : String) : String :=
  String.mk (input.toList.filter fun char =>
    if char = ' ' || char = '\n' || char = '\t' || char = '\r' then
      true
    else
      decide (char ∈ tp.accessRights))

/-- The set a successful fetch is expected to leave: the first characters of the
fetched strings that are not empty. -/
def fetchedSet (rights : List String) : Finset Char :=
  (rights.filterMap fun right => right.toList.head?).toFinset

end userapp

/-! ## Facts about the store -/

namespace database

theorem find_letter_of_mem {ls : List LetterRow} (hn : (ls.map (·.char)).Nodup)
    {l : LetterRow} (hl : l ∈ ls) :
    ls.find? (fun x => x.char = l.char) = some l := by
  induction ls with
  | nil => simp at hl
  | cons x xs ih =>
    rw [List.map_cons, List.nodup_cons] at hn
    rcases List.mem_cons.mp hl with rfl | hmem
    · simp
    · have hne : x.char ≠ l.char := by
        intro h
        exact hn.1 (h ▸ List.mem_map_of_mem (·.char) hmem)
      simp [List.find?_cons, hne, ih hn.2 hmem]

theorem find_user_of_mem {us : List UserRow} (hn : (us.map (·.name)).Nodup)
    {u : UserRow} (hu : u ∈ us) :
    us.find? (fun x => x.name = u.name) = some u := by
  induction us with
  | nil => simp at hu
  | cons x xs ih =>
    rw [List.map_cons, List.nodup_cons] at hn
    rcases List.mem_cons.mp hu with rfl | hmem
    · simp
    · have hne : x.name ≠ u.name := by
        intro h
        exact hn.1 (h ▸ List.mem_map_of_mem (·.name) hmem)
      simp [List.find?_cons, hne, ih hn.2 hmem]

theorem sampleDB_constraints : sampleDB.Constraints :=
  ⟨by decide, by decide, by decide, by decide, by decide⟩

/-- C1: granting a pair twice succeeds both times and leaves the same store (hence the
same list of permissions) as granting it once, and after a grant the pair is
present exactly once in a table that still has no repeated row. -/
theorem Grant_twice (db : DB) (s t : Int) (hpk : db.user_letters.Nodup) :
    (Grant db s t).1 = none ∧
    (Grant (Grant db s t).2 s t).1 = none ∧
    (Grant (Grant db s t).2 s t).2 = (Grant db s t).2 ∧
    GetPermissions (Grant (Grant db s t).2 s t).2 s = GetPermissions (Grant db s t).2 s ∧
    (Grant db s t).2.user_letters.count ⟨s, t⟩ = 1 ∧
    (Grant db s t).2.user_letters.Nodup := by
  have hfix : ∀ d : DB, (⟨s, t⟩ : GrantRow) ∈ d.user_letters → Grant d s t = (none, d) := by
    intro d hd
    have : d.user_letters.any (fun g => g.user_id = s ∧ g.letter_id = t) = true := by
      simp only [List.any_eq_true]
      exact ⟨⟨s, t⟩, hd, by simp⟩
    unfold Grant execInsertOrIgnoreGrant
    rw [if_pos this]
  by_cases hin : (⟨s, t⟩ : GrantRow) ∈ db.user_letters
  · rw [hfix db hin]
    simp only [hfix db hin, true_and]
    exact ⟨List.count_eq_one_of_mem hpk hin, hpk⟩
  · have hany : db.user_letters.any (fun g => g.user_id = s ∧ g.letter_id = t) = false := by
      rw [Bool.eq_false_iff]
      intro h
      simp only [List.any_eq_true, decide_eq_true_eq] at h
      obtain ⟨g, hg, h1, h2⟩ := h
      apply hin
      cases g
      simp only at h1 h2
      subst h1 h2
      exact hg
    have hstep : Grant db s t =
        (none, { db with user_letters := db.user_letters ++ [⟨s, t⟩] }) := by
      unfold Grant execInsertOrIgnoreGrant
      rw [if_neg (by rw [hany]; exact Bool.false_ne_true)]
    have hnd : (db.user_letters ++ [(⟨s, t⟩ : GrantRow)]).Nodup := by
      rw [List.nodup_append]
      refine ⟨hpk, List.nodup_singleton _, ?_⟩
      intro a ha hb
      rw [List.mem_singleton] at hb
      exact hin (hb ▸ ha)
    have hmem : (⟨s, t⟩ : GrantRow) ∈
        ({ db with user_letters := db.user_letters ++ [⟨s, t⟩] } : DB).user_letters := by
      simp
    rw [hstep]
    simp only [hfix _ hmem, true_and]
    exact ⟨List.count_eq_one_of_mem hnd (by simp), hnd⟩

theorem Grant_twice_witness :
    (Grant sampleDB 2 1).1 = none ∧
    (Grant (Grant sampleDB 2 1).2 2 1).1 = none ∧
    (Grant (Grant sampleDB 2 1).2 2 1).2 = (Grant sampleDB 2 1).2 ∧
    GetPermissions (Grant (Grant sampleDB 2 1).2 2 1).2 2 =
      GetPermissions (Grant sampleDB 2 1).2 2 ∧
    (Grant sampleDB 2 1).2.user_letters.count ⟨2, 1⟩ = 1 ∧
    (Grant sampleDB 2 1).2.user_letters.Nodup :=
  Grant_twice sampleDB 2 1 (by decide)

/-- C2: revoking a pair that is not granted returns no error and leaves the whole
store (subjects, letters, grants, counters) as it was. -/
theorem Remove_not_granted (db : DB) (s t : Int) (h : ¬ db.granted s t) :
    Remove db s t = (none, db) := by
  have hf : db.user_letters.filter (fun g => ¬ (g.user_id = s ∧ g.letter_id = t)) =
      db.user_letters := by
    rw [List.filter_eq_self]
    intro g hg
    simp only [decide_eq_true_eq]
    rintro ⟨h1, h2⟩
    apply h
    cases g
    simp only at h1 h2
    subst h1 h2
    exact hg
  simp only [Remove, execDeleteGrant, hf]

theorem Remove_not_granted_witness :
    ¬ sampleDB.granted 2 1 ∧ Remove sampleDB 2 1 = (none, sampleDB) :=
  ⟨by decide, Remove_not_granted sampleDB 2 1 (by decide)⟩

/-- C3: deleting subject `s` returns no error; afterwards no grant row names `s` and
no subject row has id `s`, while the rows of the other subjects, the grant rows of the
other subjects, the letters and the counters are exactly what they were. -/
theorem DeleteUser_cascade (db : DB) (s : Int) :
    (DeleteUser db s).1 = none ∧
    (∀ g ∈ (DeleteUser db s).2.user_letters, g.user_id ≠ s) ∧
    (∀ u ∈ (DeleteUser db s).2.users, u.id ≠ s) ∧
    (DeleteUser db s).2.users.filter (fun u => u.id ≠ s) = db.users.filter (fun u => u.id ≠ s) ∧
    (DeleteUser db s).2.user_letters.filter (fun g => g.user_id ≠ s) =
      db.user_letters.filter (fun g => g.user_id ≠ s) ∧
    (DeleteUser db s).2.letters = db.letters ∧
    (DeleteUser db s).2.users_seq = db.users_seq ∧
    (DeleteUser db s).2.letters_seq = db.letters_seq := by
  simp [DeleteUser, execDeleteGrantsOfUser, execDeleteUserRow, List.mem_filter]

/-- C4 fails on the code: after deleting subject 1 of the sample store, reading the
permissions of id 1 succeeds with an empty list instead of reporting an error. -/
theorem GetPermissions_deleted_counterexample :
    (DeleteUser sampleDB 1).1 = none ∧
    GetPermissions (DeleteUser sampleDB 1).2 1 = .ok [] := by
  decide

/-- C4 as amended: after deleting subject `s`, reading the permissions of id `s`
returns no error and the empty list; it is the lookup of the deleted subject by its
name that reports `sql.ErrNoRows`. -/
theorem GetPermissions_deleted (db : DB) (s : Int) (u : UserRow)
    (hname : (db.users.map (·.name)).Nodup) (hu : u ∈ db.users) (hs : u.id = s) :
    GetPermissions (DeleteUser db s).2 s = .ok [] ∧
    FindUser (DeleteUser db s).2 u.name = .error .ErrNoRows := by
  constructor
  · simp [GetPermissions, queryPermissions, DeleteUser, execDeleteGrantsOfUser,
      execDeleteUserRow, List.filter_filter]
  · have hnone : (db.users.filter (fun x => ¬ x.id = s)).find? (fun x => x.name = u.name) =
        none := by
      rw [List.find?_eq_none]
      intro x hx
      rw [List.mem_filter] at hx
      simp only [decide_eq_true_eq]
      intro hxn
      have hfx := find_user_of_mem hname hx.1
      rw [hxn, find_user_of_mem hname hu] at hfx
      have : u = x := Option.some.inj hfx
      subst this
      simp [hs] at hx
    simp only [FindUser, queryUserId, DeleteUser, execDeleteGrantsOfUser, execDeleteUserRow]
    rw [hnone]

theorem GetPermissions_deleted_witness :
    GetPermissions (DeleteUser sampleDB 1).2 1 = .ok [] ∧
    FindUser (DeleteUser sampleDB 1).2 "alice" = .error .ErrNoRows :=
  GetPermissions_deleted sampleDB 1 ⟨1, "alice"⟩ (by decide) (by decide) rfl

/-- C5: renaming letter `a` to a character held by a different letter `b` returns the
"already exists" error and leaves the whole store, so the letter table and every
grant of either letter, as it was. -/
theorem UpdateLetter_conflict (db : DB) (a b : Int) (c : Char)
    (huniq : (db.letters.map (·.char)).Nodup)
    (hB : (⟨b, String.singleton c⟩ : LetterRow) ∈ db.letters) (hab : a ≠ b) :
    UpdateLetter db a c = (some (.LetterExists (String.singleton c)), db) := by
  have hf := find_letter_of_mem huniq hB
  simp only at hf
  simp [UpdateLetter, queryLetterId, hf, Ne.symm hab]

theorem UpdateLetter_conflict_witness :
    UpdateLetter sampleDB 1 'B' = (some (.LetterExists (String.singleton 'B')), sampleDB) :=
  UpdateLetter_conflict sampleDB 1 2 'B' (by decide) (by decide) (by decide)

/-- C6: renaming an existing letter to the character it already has returns no error
and leaves the whole store as it was. -/
theorem UpdateLetter_same (db : DB) (a : Int) (c : Char)
    (huniq : (db.letters.map (·.char)).Nodup)
    (hA : (⟨a, String.singleton c⟩ : LetterRow) ∈ db.letters) :
    UpdateLetter db a c = (none, db) := by
  have hf := find_letter_of_mem huniq hA
  simp only at hf
  simp [UpdateLetter, queryLetterId, hf]

theorem UpdateLetter_same_witness : UpdateLetter sampleDB 1 'A' = (none, sampleDB) :=
  UpdateLetter_same sampleDB 1 'A' (by decide) (by decide)

end database

/-! ## Steps of the grant-or-create loop -/

namespace database

theorem le_maxRowid {ids : List Int} {i : Int} (h : i ∈ ids) : i ≤ maxRowid ids := by
  induction ids with
  | nil => simp at h
  | cons x xs ih =>
    rcases List.mem_cons.mp h with rfl | hmem
    · exact le_max_left _ _
    · exact le_trans (ih hmem) (le_max_right _ _)

theorem newRowid_not_mem (seq : Int) (ids : List Int) : newRowid seq ids ∉ ids := by
  intro h
  have h1 := le_maxRowid h
  have h2 : maxRowid ids ≤ max seq (maxRowid ids) := le_max_right _ _
  unfold newRowid at h1
  omega

theorem queryLetterId_ok {db : DB} {c : String} {id : Int}
    (h : queryLetterId db c = .ok id) : (⟨id, c⟩ : LetterRow) ∈ db.letters := by
  unfold queryLetterId at h
  split at h
  · rename_i l hl
    have hm := List.mem_of_find?_eq_some hl
    have hc := List.find?_some hl
    simp only [decide_eq_true_eq] at hc
    injection h with h
    cases l
    simp only at hc h
    subst hc h
    exact hm
  · cases h

theorem queryLetterId_of_any {db : DB} {c : String}
    (h : db.letters.any (fun l => l.char = c) = true) :
    ∃ id, queryLetterId db c = .ok id := by
  unfold queryLetterId
  cases hf : db.letters.find? (fun l => l.char = c) with
  | some l => exact ⟨l.id, rfl⟩
  | none =>
    rw [List.find?_eq_none] at hf
    rw [List.any_eq_true] at h
    obtain ⟨x, hx, hxc⟩ := h
    exact absurd hxc (hf x hx)

theorem queryLetterId_congr {db db1 : DB} (h : db1.letters = db.letters) (c : String) :
    queryLetterId db1 c = queryLetterId db c := by
  unfold queryLetterId
  rw [h]

theorem le_userBound {db : DB} {u : UserRow} (h : u ∈ db.users) : u.id ≤ userBound db :=
  le_trans (le_maxRowid (List.mem_map_of_mem (·.id) h)) (le_max_right _ _)

theorem le_letterBound {db : DB} {l : LetterRow} (h : l ∈ db.letters) :
    l.id ≤ letterBound db :=
  le_trans (le_maxRowid (List.mem_map_of_mem (·.id) h)) (le_max_right _ _)

theorem userBound_congr {db db1 : DB} (hu : db1.users = db.users)
    (hseq : db1.users_seq = db.users_seq) : userBound db1 = userBound db := by
  unfold userBound
  rw [hu, hseq]

theorem letterBound_congr {db db1 : DB} (hl : db1.letters = db.letters)
    (hseq : db1.letters_seq = db.letters_seq) : letterBound db1 = letterBound db := by
  unfold letterBound
  rw [hl, hseq]

theorem CreateLetter_spec (db : DB) (r : Char) :
    ∃ lid db1, CreateLetter db r = (.ok lid, db1) ∧
      LettersGrow db db1 lid (String.singleton r) := by
  have hnext : letterBound db < newRowid db.letters_seq (db.letters.map (·.id)) := by
    unfold letterBound newRowid
    omega
  by_cases hany : db.letters.any (fun l => l.char = String.singleton r) = true
  · obtain ⟨id, hid⟩ := queryLetterId_of_any hany
    have hbound : letterBound db ≤ letterBound
        { db with letters_seq := newRowid db.letters_seq (db.letters.map (·.id)) } :=
      le_trans (le_of_lt hnext) (le_max_left _ _)
    refine ⟨id, { db with letters_seq := newRowid db.letters_seq (db.letters.map (·.id)) },
      ?_, rfl, rfl, rfl, hbound, Or.inl ⟨rfl, queryLetterId_ok hid⟩⟩
    unfold CreateLetter execInsertOrIgnoreLetter
    simp only [if_pos hany, GetLetterID]
    have hq : queryLetterId
        { db with letters_seq := newRowid db.letters_seq (db.letters.map (·.id)) }
        (String.singleton r) = .ok id := by
      rw [← hid]
      exact queryLetterId_congr rfl _
    rw [hq]
  · have hbound : letterBound db ≤ letterBound
        { db with
          letters := db.letters ++
            [⟨newRowid db.letters_seq (db.letters.map (·.id)), String.singleton r⟩]
          letters_seq := newRowid db.letters_seq (db.letters.map (·.id)) } :=
      le_trans (le_of_lt hnext) (le_max_left _ _)
    refine ⟨newRowid db.letters_seq (db.letters.map (·.id)),
      { db with
        letters := db.letters ++
          [⟨newRowid db.letters_seq (db.letters.map (·.id)), String.singleton r⟩]
        letters_seq := newRowid db.letters_seq (db.letters.map (·.id)) },
      ?_, rfl, rfl, rfl, hbound, Or.inr ⟨rfl, newRowid_not_mem _ _, hnext⟩⟩
    unfold CreateLetter execInsertOrIgnoreLetter
    simp only [if_neg hany, GetLetterID, queryLetterId]
    have hnone : ∀ x ∈ db.letters, ¬ (decide (x.char = String.singleton r) = true) := by
      intro x hx hxc
      exact hany (List.any_eq_true.mpr ⟨x, hx, hxc⟩)
    rw [List.find?_append, List.find?_eq_none.mpr hnone]
    simp

theorem EnsureLetterExists_spec (db : DB) (r : Char) :
    ∃ lid db1, EnsureLetterExists db r = (.ok lid, db1) ∧
      LettersGrow db db1 lid (String.singleton r) := by
  cases hq : queryLetterId db (String.singleton r) with
  | error e =>
    obtain ⟨lid, db1, h1, h2⟩ := CreateLetter_spec db r
    refine ⟨lid, db1, ?_, h2⟩
    unfold EnsureLetterExists
    simp only [hq, h1]
  | ok id =>
    refine ⟨id, db, ?_, rfl, rfl, rfl, le_refl _, Or.inl ⟨rfl, queryLetterId_ok hq⟩⟩
    unfold EnsureLetterExists
    simp only [hq]

theorem Grant_spec (db : DB) (u l : Int) :
    ∃ db2, Grant db u l = (none, db2) ∧ db2.users = db.users ∧ db2.letters = db.letters ∧
      db2.users_seq = db.users_seq ∧ db2.letters_seq = db.letters_seq ∧
      ((db2.user_letters = db.user_letters ∧ (⟨u, l⟩ : GrantRow) ∈ db.user_letters) ∨
       db2.user_letters = db.user_letters ++ [⟨u, l⟩]) := by
  by_cases hany : db.user_letters.any (fun g => g.user_id = u ∧ g.letter_id = l) = true
  · refine ⟨db, ?_, rfl, rfl, rfl, rfl, Or.inl ⟨rfl, ?_⟩⟩
    · unfold Grant execInsertOrIgnoreGrant
      rw [if_pos hany]
    · rw [List.any_eq_true] at hany
      obtain ⟨g, hg, hgu⟩ := hany
      simp only [decide_eq_true_eq] at hgu
      cases g
      simp only at hgu
      obtain ⟨h1, h2⟩ := hgu
      subst h1 h2
      exact hg
  · refine ⟨{ db with user_letters := db.user_letters ++ [⟨u, l⟩] }, ?_, rfl, rfl, rfl, rfl,
      Or.inr rfl⟩
    unfold Grant execInsertOrIgnoreGrant
    rw [if_neg hany]

theorem FindUser_eq_find (db : DB) (n : String) :
    FindUser db n = match db.users.find? (fun u => u.name = n) with
      | some u => .ok u.id
      | none => .error .ErrNoRows := by
  unfold FindUser queryUserId
  cases db.users.find? (fun u => u.name = n) <;> rfl

/-- What `Create` does for a name that does not resolve: it appends one subject row
with a new id, returns no error, and the rest is the letter loop run for that id. -/
theorem Create_new (db : DB) (name : String) (letters : List Char)
    (h : ∀ u ∈ db.users, u.name ≠ name) :
    Create db name letters =
      Create.loop (newRowid db.users_seq (db.users.map (·.id)))
        { db with
          users := db.users ++ [⟨newRowid db.users_seq (db.users.map (·.id)), name⟩]
          users_seq := newRowid db.users_seq (db.users.map (·.id)) } letters := by
  have hany : ¬ (db.users.any (fun u => u.name = name) = true) := by
    rw [List.any_eq_true]
    rintro ⟨x, hx, hxn⟩
    exact h x hx (of_decide_eq_true hxn)
  have hnone : ∀ x ∈ db.users, ¬ (decide (x.name = name) = true) := by
    intro x hx hxn
    exact h x hx (of_decide_eq_true hxn)
  unfold Create CreateUser execInsertOrIgnoreUser
  simp only [if_neg hany, GetUserID, queryUserId]
  rw [List.find?_append, List.find?_eq_none.mpr hnone]
  simp

end database

/-! ## What a subject holds, and how one grant step changes it -/

namespace database

theorem mem_GetPermissions (db : DB) (j : Int) :
    ∃ xs, GetPermissions db j = .ok xs ∧
      ∀ s, s ∈ xs ↔ holdsIn db.letters db.user_letters j s := by
  refine ⟨_, rfl, ?_⟩
  intro s
  simp only [holdsIn, List.mem_flatMap, List.mem_filter, List.mem_map, decide_eq_true_eq]
  constructor
  · rintro ⟨g, ⟨hg, hj⟩, l, ⟨hl, hid⟩, hc⟩
    exact ⟨g, hg, hj, l, hl, hid, hc⟩
  · rintro ⟨g, hg, hj, l, hl, hid, hc⟩
    exact ⟨g, ⟨hg, hj⟩, l, ⟨hl, hid⟩, hc⟩

theorem DB.RefsAssigned.of_referential {db : DB} (hr : db.Referential) : db.RefsAssigned := by
  constructor
  · intro g hg
    obtain ⟨u, hu, hid⟩ := List.mem_map.mp (hr.user_fk g hg)
    exact hid ▸ le_userBound hu
  · intro g hg
    obtain ⟨l, hl, hid⟩ := List.mem_map.mp (hr.letter_fk g hg)
    exact hid ▸ le_letterBound hl

theorem DB.Sound.of_schema {db : DB} (hc : db.Constraints) (hr : db.RefsAssigned) : db.Sound :=
  ⟨hc.users_id, hc.letters_id, hr.user_ref, hr.letter_ref⟩

theorem holdsIn_append_letter {letters : List LetterRow} {grants : List GrantRow}
    {lid : Int} {c : String} (hne : ∀ g ∈ grants, g.letter_id ≠ lid)
    (j : Int) (s : String) :
    holdsIn (letters ++ [⟨lid, c⟩]) grants j s ↔ holdsIn letters grants j s := by
  constructor
  · rintro ⟨g, hg, hj, l, hl, hid, hc⟩
    rcases List.mem_append.mp hl with hl | hl
    · exact ⟨g, hg, hj, l, hl, hid, hc⟩
    · rw [List.mem_singleton] at hl
      subst hl
      exact absurd hid.symm (hne g hg)
  · rintro ⟨g, hg, hj, l, hl, hid, hc⟩
    exact ⟨g, hg, hj, l, List.mem_append_left _ hl, hid, hc⟩

theorem holdsIn_of_granted {letters : List LetterRow} {grants : List GrantRow}
    {uid lid : Int} {c : String} (hl : (⟨lid, c⟩ : LetterRow) ∈ letters)
    (hg : (⟨uid, lid⟩ : GrantRow) ∈ grants) : holdsIn letters grants uid c :=
  ⟨⟨uid, lid⟩, hg, rfl, ⟨lid, c⟩, hl, rfl, rfl⟩

theorem holdsIn_append_grant {letters : List LetterRow} {grants : List GrantRow}
    {uid lid : Int} {c : String} (hnd : (letters.map (·.id)).Nodup)
    (hl : (⟨lid, c⟩ : LetterRow) ∈ letters) (j : Int) (s : String) :
    holdsIn letters (grants ++ [⟨uid, lid⟩]) j s ↔
      holdsIn letters grants j s ∨ (j = uid ∧ s = c) := by
  constructor
  · rintro ⟨g, hg, hj, l, hl', hid, hc⟩
    rcases List.mem_append.mp hg with hg | hg
    · exact Or.inl ⟨g, hg, hj, l, hl', hid, hc⟩
    · rw [List.mem_singleton] at hg
      subst hg
      have hll : l = ⟨lid, c⟩ := List.inj_on_of_nodup_map hnd hl' hl hid
      subst hll
      exact Or.inr ⟨hj.symm, hc.symm⟩
  · rintro (⟨g, hg, hj, l, hl', hid, hc⟩ | ⟨rfl, rfl⟩)
    · exact ⟨g, List.mem_append_left _ hg, hj, l, hl', hid, hc⟩
    · exact holdsIn_of_granted hl (List.mem_append_right _ (List.mem_singleton.mpr rfl))

theorem LettersGrow_sound {db db1 : DB} {lid : Int} {c : String} (hs : db.Sound)
    (h : LettersGrow db db1 lid c) :
    db1.Sound ∧ (⟨lid, c⟩ : LetterRow) ∈ db1.letters ∧
      ∀ j s, holdsIn db1.letters db1.user_letters j s ↔
        holdsIn db.letters db.user_letters j s := by
  obtain ⟨hu, hg, hseq, hbound, hcase⟩ := h
  have huser : ∀ g ∈ db1.user_letters, g.user_id ≤ userBound db1 := by
    rw [hg, userBound_congr hu hseq]
    exact hs.user_ref
  have hletter : ∀ g ∈ db1.user_letters, g.letter_id ≤ letterBound db1 := by
    rw [hg]
    exact fun g hg' => le_trans (hs.letter_ref g hg') hbound
  rcases hcase with ⟨hl, hmem⟩ | ⟨hl, hnew, hlt⟩
  · refine ⟨⟨hu ▸ hs.users_id, hl ▸ hs.letters_id, huser, hletter⟩, hl ▸ hmem, ?_⟩
    intro j s; rw [hl, hg]
  · refine ⟨⟨hu ▸ hs.users_id, ?_, huser, hletter⟩, ?_, ?_⟩
    · rw [hl, List.map_append, List.nodup_append]
      refine ⟨hs.letters_id, List.nodup_singleton _, ?_⟩
      intro a ha hb
      simp only [List.map_cons, List.map_nil, List.mem_singleton] at hb
      exact hnew (hb ▸ ha)
    · rw [hl]; simp
    · intro j s
      rw [hl, hg]
      apply holdsIn_append_letter
      intro g hg' heq
      have := hs.letter_ref g hg'
      omega

theorem GrantStep_users {uid : Int} {c : String} {db db2 : DB}
    (h : GrantStep uid c db db2) : db2.users = db.users := by
  obtain ⟨lid, db1, hgrow, hu, -⟩ := h
  rw [hu, hgrow.1]

theorem GrantStep_users_seq {uid : Int} {c : String} {db db2 : DB}
    (h : GrantStep uid c db db2) : db2.users_seq = db.users_seq := by
  obtain ⟨lid, db1, hgrow, -, -, hseq, -⟩ := h
  rw [hseq, hgrow.2.2.1]

theorem GrantStep_sound {uid : Int} {c : String} {db db2 : DB} (hs : db.Sound)
    (huid : uid ∈ db.users.map (·.id)) (h : GrantStep uid c db db2) :
    db2.Sound ∧ ∀ j s, holdsIn db2.letters db2.user_letters j s ↔
      holdsIn db.letters db.user_letters j s ∨ (j = uid ∧ s = c) := by
  obtain ⟨lid, db1, hgrow, hu, hl, hseq, hlseq, hcase⟩ := h
  obtain ⟨hs1, hmem, hh⟩ := LettersGrow_sound hs hgrow
  obtain ⟨u, hu1, huid1⟩ : ∃ u ∈ db1.users, u.id = uid := by
    rw [hgrow.1]
    exact List.mem_map.mp huid
  have hub : userBound db2 = userBound db1 := userBound_congr hu hseq
  have hlb : letterBound db2 = letterBound db1 := letterBound_congr hl hlseq
  rcases hcase with ⟨hg, hin⟩ | hg
  · refine ⟨⟨hu ▸ hs1.users_id, hl ▸ hs1.letters_id, ?_, ?_⟩, ?_⟩
    · rw [hub, hg]; exact hs1.user_ref
    · rw [hlb, hg]; exact hs1.letter_ref
    · intro j s
      rw [hl, hg, hh]
      constructor
      · exact Or.inl
      · rintro (h | ⟨rfl, rfl⟩)
        · exact h
        · exact (hh _ _).mp (holdsIn_of_granted hmem hin)
  · refine ⟨⟨hu ▸ hs1.users_id, hl ▸ hs1.letters_id, ?_, ?_⟩, ?_⟩
    · rw [hub, hg]
      intro g hg'
      rcases List.mem_append.mp hg' with hg' | hg'
      · exact hs1.user_ref g hg'
      · rw [List.mem_singleton] at hg'
        subst hg'
        exact huid1 ▸ le_userBound hu1
    · rw [hlb, hg]
      intro g hg'
      rcases List.mem_append.mp hg' with hg' | hg'
      · exact hs1.letter_ref g hg'
      · rw [List.mem_singleton] at hg'
        subst hg'
        exact le_letterBound hmem
    · intro j s
      rw [hl, hg, holdsIn_append_grant hs1.letters_id hmem, hh]

theorem GrantSteps_users {uid : Int} {db db3 : DB} {rs : List Char}
    (h : GrantSteps uid db rs db3) : db3.users = db.users := by
  induction h with
  | nil => rfl
  | cons hstep _ ih => rw [ih, GrantStep_users hstep]

theorem GrantSteps_userBound {uid : Int} {db db3 : DB} {rs : List Char}
    (h : GrantSteps uid db rs db3) : userBound db3 = userBound db := by
  induction h with
  | nil => rfl
  | cons hstep _ ih =>
    rw [ih]
    exact userBound_congr (GrantStep_users hstep) (GrantStep_users_seq hstep)

theorem GrantSteps_sound {uid : Int} {db db3 : DB} {rs : List Char}
    (h : GrantSteps uid db rs db3) (hs : db.Sound) (huid : uid ∈ db.users.map (·.id)) :
    db3.Sound ∧ ∀ j s, holdsIn db3.letters db3.user_letters j s ↔
      holdsIn db.letters db.user_letters j s ∨
        (j = uid ∧ s ∈ rs.map String.singleton) := by
  induction h with
  | nil db => exact ⟨hs, fun j s => by simp⟩
  | @cons db db2 db3 r rs hstep _ ih =>
    obtain ⟨hs2, hh2⟩ := GrantStep_sound hs huid hstep
    obtain ⟨hs3, hh3⟩ := ih hs2 (by rw [GrantStep_users hstep]; exact huid)
    refine ⟨hs3, fun j s => ?_⟩
    rw [hh3, hh2, List.map_cons, List.mem_cons]
    tauto

theorem GrantStep.of_calls {uid : Int} {r : Char} {db db1 db2 : DB} {lid : Int}
    (h1 : LettersGrow db db1 lid (String.singleton r))
    (h2 : Grant db1 uid lid = (none, db2)) : GrantStep uid (String.singleton r) db db2 := by
  obtain ⟨d, hd, hu, hl, hseq, hlseq, hcase⟩ := Grant_spec db1 uid lid
  rw [h2] at hd
  have : db2 = d := (Prod.mk.inj hd).2
  subst this
  exact ⟨lid, db1, h1, hu, hl, hseq, hlseq, hcase⟩

theorem Create.loop_steps (uid : Int) (rs : List Char) (db : DB) :
    ∃ db3, Create.loop uid db rs = (none, db3) ∧ GrantSteps uid db rs db3 := by
  induction rs generalizing db with
  | nil => exact ⟨db, rfl, .nil db⟩
  | cons r rs ih =>
    obtain ⟨lid, db1, hc, hgrow⟩ := CreateLetter_spec db r
    obtain ⟨db2, hg, -⟩ := Grant_spec db1 uid lid
    obtain ⟨db3, h3, hsteps⟩ := ih db2
    refine ⟨db3, ?_, .cons (GrantStep.of_calls hgrow hg) hsteps⟩
    rw [Create.loop, hc]
    simp only [hg, h3]

end database

/-! ## The grant-or-create loop, one subject at a time -/

namespace admin

open database

theorem FindUser_ok {db : DB} {n : String} {id : Int} (h : FindUser db n = .ok id) :
    (⟨id, n⟩ : UserRow) ∈ db.users := by
  rw [FindUser_eq_find] at h
  split at h
  · rename_i u hu
    have hm := List.mem_of_find?_eq_some hu
    have hn := List.find?_some hu
    simp only [decide_eq_true_eq] at hn
    injection h with h
    cases u
    simp only at hn h
    subst hn h
    exact hm
  · cases h

theorem FindUser_error {db : DB} {n : String} {e : Error} (h : FindUser db n = .error e) :
    e = .ErrNoRows ∧ ∀ x ∈ db.users, x.name ≠ n := by
  rw [FindUser_eq_find] at h
  split at h
  · cases h
  · rename_i hnone
    injection h with h
    refine ⟨h.symm, fun x hx hxn => ?_⟩
    rw [List.find?_eq_none] at hnone
    exact hnone x hx (decide_eq_true hxn)

theorem resolves_iff (db : DB) (n : String) :
    resolves db n = true ↔ ∃ x ∈ db.users, x.name = n := by
  unfold resolves
  cases h : FindUser db n with
  | ok id => simpa using ⟨⟨id, n⟩, FindUser_ok h, rfl⟩
  | error e =>
    have := (FindUser_error h).2
    simp only [Bool.false_eq_true, false_iff, not_exists, not_and]
    exact this

theorem letters_steps (user : String) (uid : Int) (rs : List Char) (db : DB) (g : Bool)
    (e : List String) :
    ∃ db3, bulkGrantAddBtn.letters user uid rs db g e = (db3, g || !rs.isEmpty, e) ∧
      GrantSteps uid db rs db3 := by
  induction rs generalizing db g with
  | nil => exact ⟨db, by simp [bulkGrantAddBtn.letters], .nil db⟩
  | cons r rs ih =>
    obtain ⟨lid, db1, hc, hgrow⟩ := EnsureLetterExists_spec db r
    obtain ⟨db2, hg, -⟩ := Grant_spec db1 uid lid
    obtain ⟨db3, h3, hsteps⟩ := ih db2 true
    refine ⟨db3, ?_, .cons (GrantStep.of_calls hgrow hg) hsteps⟩
    rw [bulkGrantAddBtn.letters, hc]
    simp only [hg, h3]
    simp

/-- One turn of the grant-or-create loop: a found subject is granted every letter
and counted as granted when the list is non-empty; a missing one is created with
the letters and counted as created. No turn adds a failure message. -/
theorem bulkGrantAdd_cons (T : List Char) (u : String) (us : List String)
    (st : GrantAddState) :
    (∃ uid db3, (⟨uid, u⟩ : UserRow) ∈ st.db.users ∧ FindUser st.db u = .ok uid ∧
      GrantSteps uid st.db T db3 ∧
      bulkGrantAddBtn.loop T (u :: us) st = bulkGrantAddBtn.loop T us
        ⟨db3, st.createdCount, if T = [] then st.grantedCount else st.grantedCount + 1,
          st.errorMessages⟩) ∨
    (∃ db3, (∀ x ∈ st.db.users, x.name ≠ u) ∧
      GrantSteps (newRowid st.db.users_seq (st.db.users.map (·.id))) (withNewUser st.db u) T db3 ∧
      bulkGrantAddBtn.loop T (u :: us) st = bulkGrantAddBtn.loop T us
        ⟨db3, st.createdCount + 1, st.grantedCount, st.errorMessages⟩) := by
  cases hf : FindUser st.db u with
  | ok uid =>
    left
    obtain ⟨db3, h3, hsteps⟩ := letters_steps u uid T st.db false st.errorMessages
    refine ⟨uid, db3, FindUser_ok hf, rfl, hsteps, ?_⟩
    rw [bulkGrantAddBtn.loop]
    simp only [hf, h3]
    cases T <;> simp
  | error e =>
    right
    have hno := (FindUser_error hf).2
    obtain ⟨db3, h3, hsteps⟩ := Create.loop_steps
      (newRowid st.db.users_seq (st.db.users.map (·.id))) T (withNewUser st.db u)
    refine ⟨db3, hno, hsteps, ?_⟩
    rw [bulkGrantAddBtn.loop]
    simp only [hf, Create_new st.db u T hno]
    unfold withNewUser at h3
    simp only [h3]

theorem resolves_of_users_eq {db db1 : DB} (h : db1.users = db.users) (n : String) :
    resolves db1 n = resolves db n := by
  rw [Bool.eq_iff_iff, resolves_iff, resolves_iff, h]

theorem resolves_withNewUser_steps {db db3 : DB} {u : String} {uid : Int} {T : List Char}
    (h : GrantSteps uid (withNewUser db u) T db3) (n : String) :
    resolves db3 n = (resolves db n || decide (n = u)) := by
  rw [Bool.eq_iff_iff, resolves_iff, GrantSteps_users h]
  simp only [withNewUser, List.mem_append, List.mem_singleton, Bool.or_eq_true, resolves_iff,
    decide_eq_true_eq]
  constructor
  · rintro ⟨x, hx | hx, hn⟩
    · exact Or.inl ⟨x, hx, hn⟩
    · subst hx; exact Or.inr hn.symm
  · rintro (⟨x, hx, hn⟩ | hn)
    · exact ⟨x, Or.inl hx, hn⟩
    · exact ⟨_, Or.inr rfl, hn.symm⟩

theorem bulkGrantAdd_counts_aux (T : List Char) (hT : T ≠ []) (users : List String) :
    ∀ st : GrantAddState,
      (bulkGrantAddBtn.loop T users st).createdCount = st.createdCount +
        (users.toFinset.filter (fun u => resolves st.db u = false)).card ∧
      (bulkGrantAddBtn.loop T users st).grantedCount +
        (bulkGrantAddBtn.loop T users st).createdCount =
          st.grantedCount + st.createdCount + users.length ∧
      (bulkGrantAddBtn.loop T users st).errorMessages = st.errorMessages := by
  induction users with
  | nil => intro st; simp [bulkGrantAddBtn.loop]
  | cons u us ih =>
    intro st
    rcases bulkGrantAdd_cons T u us st with ⟨uid, db3, hmem, -, hsteps, heq⟩ | ⟨db3, hno, hsteps, heq⟩
    · rw [heq]
      obtain ⟨h1, h2, h3⟩ := ih ⟨db3, st.createdCount,
        if T = [] then st.grantedCount else st.grantedCount + 1, st.errorMessages⟩
      dsimp only at h1 h2 h3
      have hres : resolves st.db u = true := (resolves_iff _ _).mpr ⟨_, hmem, rfl⟩
      have hset : (u :: us).toFinset.filter (fun v => resolves st.db v = false) =
          us.toFinset.filter (fun v => resolves db3 v = false) := by
        ext v
        simp only [List.toFinset_cons, Finset.mem_filter, Finset.mem_insert, List.mem_toFinset,
          resolves_of_users_eq (GrantSteps_users hsteps)]
        constructor
        · rintro ⟨rfl | hv, hr⟩
          · rw [hres] at hr; cases hr
          · exact ⟨hv, hr⟩
        · rintro ⟨hv, hr⟩
          exact ⟨Or.inr hv, hr⟩
      rw [hset]
      refine ⟨h1, ?_, h3⟩
      rw [h2]
      simp only [if_neg hT, List.length_cons]
      omega
    · rw [heq]
      obtain ⟨h1, h2, h3⟩ := ih ⟨db3, st.createdCount + 1, st.grantedCount, st.errorMessages⟩
      dsimp only at h1 h2 h3
      have hres : resolves st.db u = false := by
        rw [Bool.eq_false_iff, Ne, resolves_iff]
        rintro ⟨x, hx, hn⟩
        exact hno x hx hn
      have hset : (u :: us).toFinset.filter (fun v => resolves st.db v = false) =
          insert u (us.toFinset.filter (fun v => resolves db3 v = false)) := by
        ext v
        simp only [List.toFinset_cons, Finset.mem_filter, Finset.mem_insert, List.mem_toFinset,
          resolves_withNewUser_steps hsteps, Bool.or_eq_false_iff, decide_eq_false_iff_not]
        constructor
        · rintro ⟨rfl | hv, hr⟩
          · exact Or.inl rfl
          · by_cases hvu : v = u
            · exact Or.inl hvu
            · exact Or.inr ⟨hv, hr, hvu⟩
        · rintro (rfl | ⟨hv, hr, -⟩)
          · exact ⟨Or.inl rfl, hres⟩
          · exact ⟨Or.inr hv, hr⟩
      have hnot : u ∉ us.toFinset.filter (fun v => resolves db3 v = false) := by
        simp [resolves_withNewUser_steps hsteps]
      rw [hset, Finset.card_insert_of_not_mem hnot]
      refine ⟨by rw [h1]; omega, ?_, h3⟩
      rw [h2]
      simp only [List.length_cons]
      omega

/-- C7: on parsed input with a non-empty letter list, the grant-or-create loop reports
as created the number of distinct parsed names that did not resolve in the initial
store, as granted the number of parsed names minus the created ones, and no failure. -/
theorem bulkGrantAdd_counts (db : DB) (usersText lettersText : String)
    (hT : parseLetters lettersText ≠ []) :
    (bulkGrantAdd db (parseUsers usersText) (parseLetters lettersText)).createdCount =
      ((parseUsers usersText).toFinset.filter (fun u => resolves db u = false)).card ∧
    (bulkGrantAdd db (parseUsers usersText) (parseLetters lettersText)).grantedCount =
      (parseUsers usersText).length -
        (bulkGrantAdd db (parseUsers usersText) (parseLetters lettersText)).createdCount ∧
    (bulkGrantAdd db (parseUsers usersText) (parseLetters lettersText)).createdCount ≤
      (parseUsers usersText).length ∧
    (bulkGrantAdd db (parseUsers usersText) (parseLetters lettersText)).errorMessages = [] := by
  obtain ⟨h1, h2, h3⟩ := bulkGrantAdd_counts_aux (parseLetters lettersText) hT
    (parseUsers usersText) ⟨db, 0, 0, []⟩
  dsimp only at h1 h2 h3
  unfold bulkGrantAdd
  refine ⟨by rw [h1]; simp, by omega, by omega, h3⟩

theorem bulkGrantAdd_counts_witness :
    parseUsers "alice\n\nbob" = ["alice", "bob"] ∧ parseLetters "A B" = ['A', 'B'] ∧
    (bulkGrantAdd aliceDB (parseUsers "alice\n\nbob") (parseLetters "A B")).createdCount = 1 ∧
    (bulkGrantAdd aliceDB (parseUsers "alice\n\nbob") (parseLetters "A B")).grantedCount = 1 ∧
    (bulkGrantAdd aliceDB (parseUsers "alice\n\nbob") (parseLetters "A B")).errorMessages = [] := by
  have h := bulkGrantAdd_counts aliceDB "alice\n\nbob" "A B" (by decide)
  refine ⟨by decide, by decide, ?_, ?_, h.2.2.2⟩
  · rw [h.1]; decide
  · rw [h.2.1, h.1]; decide

end admin

/-! ## The bulk-revoke loop -/

namespace admin

open database

theorem GetLetterID_congr {db db1 : DB} (h : db1.letters = db.letters) (r : Char) :
    GetLetterID db1 r = GetLetterID db r := by
  unfold GetLetterID
  exact queryLetterId_congr h _

theorem letterKnown_congr {db db1 : DB} (h : db1.letters = db.letters) (r : Char) :
    letterKnown db1 r = letterKnown db r := by
  unfold letterKnown
  rw [GetLetterID_congr h]

theorem removeLetters_spec (uid : Int) (rs : List Char) (db : DB) (g : Bool) :
    ∃ db1, bulkRemoveRightsBtn.letters uid rs db g = (db1, g || rs.any (letterKnown db)) ∧
      db1.users = db.users ∧ db1.letters = db.letters := by
  induction rs generalizing db g with
  | nil => exact ⟨db, by simp [bulkRemoveRightsBtn.letters], rfl, rfl⟩
  | cons r rs ih =>
    cases hq : GetLetterID db r with
    | error e =>
      obtain ⟨db1, h1, hu, hl⟩ := ih db g
      refine ⟨db1, ?_, hu, hl⟩
      rw [bulkRemoveRightsBtn.letters]
      simp only [hq, h1, List.any_cons, letterKnown, Bool.false_or]
    | ok lid =>
      obtain ⟨db1, h1, hu, hl⟩ := ih (Remove db uid lid).2 true
      have hl2 : (Remove db uid lid).2.letters = db.letters := rfl
      refine ⟨db1, ?_, hu, hl⟩
      rw [bulkRemoveRightsBtn.letters]
      have hrem : Remove db uid lid = (none, (Remove db uid lid).2) := rfl
      simp only [hq]
      rw [hrem]
      simp only [h1, List.any_cons, letterKnown, hq, Bool.true_or, Bool.or_true]

/-- C9: revoking a single character that is not a letter of the store from a single
existing subject reports zero subjects, no failure, and leaves the store as it was;
in particular the character is not created. -/
theorem bulkRemoveRights_unknown_letter (db : DB) (s : String) (z : Char)
    (hs : resolves db s = true) (hz : ∀ l ∈ db.letters, l.char ≠ String.singleton z) :
    bulkRemoveRights db [s] [z] = ⟨db, 0, []⟩ := by
  have hq : GetLetterID db z = .error .ErrNoRows := by
    unfold GetLetterID queryLetterId
    have hnone : db.letters.find? (fun l => l.char = String.singleton z) = none := by
      rw [List.find?_eq_none]
      intro x hx
      simpa using hz x hx
    simp only [hnone]
  unfold resolves at hs
  cases hf : FindUser db s with
  | error e => rw [hf] at hs; cases hs
  | ok uid =>
    simp only [bulkRemoveRights, bulkRemoveRightsBtn.loop, hf, bulkRemoveRightsBtn.letters, hq]
    simp

theorem bulkRemoveRights_unknown_letter_witness :
    bulkRemoveRights sampleDB ["alice"] ['Z'] = ⟨sampleDB, 0, []⟩ :=
  bulkRemoveRights_unknown_letter sampleDB "alice" 'Z' (by decide) (by decide)

/-- C10 fails on the code: bob holds nothing in the sample store, so revoking letter A
from bob removes no grant and leaves the store as it was, yet the loop reports one
subject as having had rights taken away. -/
theorem bulkRemoveRights_count_counterexample :
    (bulkRemoveRights sampleDB ["bob"] ['A']).removedCount = 1 ∧
    (["bob"].filter (hadGrantRemoved sampleDB
      (bulkRemoveRights sampleDB ["bob"] ['A']).db ['A'])).length = 0 ∧
    (bulkRemoveRights sampleDB ["bob"] ['A']).db = sampleDB := by
  decide

theorem bulkRemoveRights_count_aux (T : List Char) (users : List String) :
    ∀ st : RemoveRightsState,
      (bulkRemoveRightsBtn.loop T users st).removedCount = st.removedCount +
        (users.filter (fun u => resolves st.db u && T.any (letterKnown st.db))).length ∧
      (bulkRemoveRightsBtn.loop T users st).db.users = st.db.users ∧
      (bulkRemoveRightsBtn.loop T users st).db.letters = st.db.letters := by
  induction users with
  | nil => intro st; simp [bulkRemoveRightsBtn.loop]
  | cons u us ih =>
    intro st
    cases hf : FindUser st.db u with
    | error e =>
      have hres : resolves st.db u = false := by unfold resolves; rw [hf]
      obtain ⟨h1, h2, h3⟩ := ih
        { st with errorMessages := st.errorMessages ++
            ["Ошибка: пользователь \'" ++ u ++ "\' не найден."] }
      dsimp only at h1 h2 h3
      rw [bulkRemoveRightsBtn.loop]
      simp only [hf]
      refine ⟨?_, h2, h3⟩
      rw [h1, List.filter_cons]
      simp [hres]
    | ok uid =>
      have hres : resolves st.db u = true := by unfold resolves; rw [hf]
      obtain ⟨db1, hl, hu1, hl1⟩ := removeLetters_spec uid T st.db false
      obtain ⟨h1, h2, h3⟩ := ih
        { st with
          db := db1
          removedCount := if (false || T.any (letterKnown st.db)) = true
            then st.removedCount + 1 else st.removedCount }
      dsimp only at h1 h2 h3
      rw [bulkRemoveRightsBtn.loop]
      simp only [hf, hl]
      refine ⟨?_, h2.trans hu1, h3.trans hl1⟩
      rw [h1, List.filter_cons]
      have hpred : ∀ v, (resolves db1 v && T.any (letterKnown db1)) =
          (resolves st.db v && T.any (letterKnown st.db)) := by
        intro v
        rw [resolves_of_users_eq hu1, funext (letterKnown_congr hl1)]
      simp only [hpred, hres, Bool.true_and, Bool.false_or]
      by_cases hany : T.any (letterKnown st.db) = true
      · simp only [hany, if_true, List.length_cons]
        omega
      · simp only [hany, if_false]
        simp

theorem isGranted_known {db : DB} {user : String} {r : Char}
    (h : isGranted db user r = true) : resolves db user = true ∧ letterKnown db r = true := by
  unfold isGranted at h
  unfold resolves
  cases hf : FindUser db user with
  | error e => rw [hf] at h; cases h
  | ok uid =>
    refine ⟨rfl, ?_⟩
    rw [hf] at h
    obtain ⟨xs, hxs, hmem⟩ := mem_GetPermissions db uid
    simp only [hxs] at h
    have h' : String.singleton r ∈ xs := by simpa using h
    obtain ⟨g, -, -, l, hl, -, hc⟩ := (hmem _).mp h'
    obtain ⟨id, hid⟩ := @queryLetterId_of_any db (String.singleton r)
      (List.any_eq_true.mpr ⟨l, hl, decide_eq_true hc⟩)
    unfold letterKnown GetLetterID
    simp only [hid]

/-- What the bulk-revoke loop counts: the listed names that resolve, when at least one
listed character is a letter of the store (so that a revoke was issued and returned
no error), whether or not a grant row was deleted; the listed names that had a grant
removed are no more than that. -/
theorem bulkRemoveRights_count (db : DB) (users : List String) (letterRunes : List Char) :
    (bulkRemoveRights db users letterRunes).removedCount =
      (users.filter (fun u => resolves db u && letterRunes.any (letterKnown db))).length ∧
    (users.filter (hadGrantRemoved db (bulkRemoveRights db users letterRunes).db
      letterRunes)).length ≤ (bulkRemoveRights db users letterRunes).removedCount := by
  obtain ⟨h1, -, -⟩ := bulkRemoveRights_count_aux letterRunes users ⟨db, 0, []⟩
  dsimp only at h1
  have hcount : (bulkRemoveRights db users letterRunes).removedCount =
      (users.filter (fun u => resolves db u && letterRunes.any (letterKnown db))).length := by
    unfold bulkRemoveRights
    rw [h1]
    simp
  refine ⟨hcount, ?_⟩
  rw [hcount]
  apply List.Sublist.length_le
  apply List.monotone_filter_right
  intro u hu
  unfold hadGrantRemoved at hu
  rw [List.any_eq_true] at hu
  obtain ⟨r, hr, hg⟩ := hu
  rw [Bool.and_eq_true] at hg
  obtain ⟨hres, hknown⟩ := isGranted_known hg.1
  rw [Bool.and_eq_true]
  exact ⟨hres, List.any_eq_true.mpr ⟨r, hr, hknown⟩⟩

end admin

/-! ## Allow-sets after the grant-or-create loop -/

namespace admin

open database

theorem mem_allowSet (db : DB) (n s : String) :
    s ∈ allowSet db n ↔
      ∃ id, FindUser db n = .ok id ∧ holdsIn db.letters db.user_letters id s := by
  unfold allowSet
  cases hf : FindUser db n with
  | error e => simp
  | ok id =>
    obtain ⟨xs, hxs, hmem⟩ := mem_GetPermissions db id
    simp only [hxs, hmem, Except.ok.injEq, exists_eq_left']

theorem FindUser_of_prefix {db fin : DB} {extra : List UserRow}
    (h : fin.users = db.users ++ extra) {n : String} {id : Int}
    (hf : FindUser db n = .ok id) : FindUser fin n = .ok id := by
  rw [FindUser_eq_find] at hf ⊢
  rw [h, List.find?_append]
  cases hfind : db.users.find? (fun u => u.name = n) with
  | none => rw [hfind] at hf; cases hf
  | some u => rw [hfind] at hf; simpa using hf

theorem FindUser_of_missing {db : DB} {n : String} (h : ∀ x ∈ db.users, x.name ≠ n) :
    FindUser db n = .error .ErrNoRows := by
  rw [FindUser_eq_find]
  have hnone : db.users.find? (fun u => u.name = n) = none := by
    rw [List.find?_eq_none]
    intro x hx
    simpa using h x hx
  rw [hnone]

theorem FindUser_withNewUser (db : DB) (u : String) (h : ∀ x ∈ db.users, x.name ≠ u) :
    FindUser (withNewUser db u) u = .ok (newRowid db.users_seq (db.users.map (·.id))) := by
  rw [FindUser_eq_find]
  have hnone : db.users.find? (fun x => x.name = u) = none := by
    rw [List.find?_eq_none]
    intro x hx
    simpa using h x hx
  simp only [withNewUser, List.find?_append, hnone]
  simp

theorem userBound_withNewUser (db : DB) (u : String) :
    userBound db < newRowid db.users_seq (db.users.map (·.id)) ∧
    newRowid db.users_seq (db.users.map (·.id)) ≤ userBound (withNewUser db u) := by
  constructor
  · unfold userBound newRowid
    omega
  · exact le_max_left _ _

theorem withNewUser_sound {db : DB} (hs : db.Sound) (u : String) : (withNewUser db u).Sound := by
  refine ⟨?_, hs.letters_id, ?_, hs.letter_ref⟩
  · simp only [withNewUser, List.map_append, List.map_cons, List.map_nil]
    rw [List.nodup_append]
    refine ⟨hs.users_id, List.nodup_singleton _, ?_⟩
    intro a ha hb
    rw [List.mem_singleton] at hb
    exact newRowid_not_mem _ _ (hb ▸ ha)
  · intro g hg
    have h1 := hs.user_ref g hg
    have h2 := userBound_withNewUser db u
    exact le_trans h1 (le_trans (le_of_lt h2.1) h2.2)

theorem bulkGrantAdd_sound_aux (T : List Char) (users : List String) :
    ∀ st : GrantAddState, st.db.Sound →
      (bulkGrantAddBtn.loop T users st).db.Sound ∧
      (∃ extra, (bulkGrantAddBtn.loop T users st).db.users = st.db.users ++ extra ∧
        ∀ x ∈ extra, x.name ∈ users ∧ userBound st.db < x.id) ∧
      (∀ n ∈ users, resolves (bulkGrantAddBtn.loop T users st).db n = true) ∧
      (∀ j s, holdsIn (bulkGrantAddBtn.loop T users st).db.letters
          (bulkGrantAddBtn.loop T users st).db.user_letters j s ↔
        holdsIn st.db.letters st.db.user_letters j s ∨
          (s ∈ T.map String.singleton ∧
            ∃ n ∈ users, FindUser (bulkGrantAddBtn.loop T users st).db n = .ok j)) := by
  induction users with
  | nil =>
    intro st hs
    refine ⟨hs, ⟨[], by simp [bulkGrantAddBtn.loop], by simp⟩, by simp, ?_⟩
    intro j s
    simp [bulkGrantAddBtn.loop]
  | cons u us ih =>
    intro st hs
    rcases bulkGrantAdd_cons T u us st with
      ⟨uid, db3, hmem, hfind, hsteps, heq⟩ | ⟨db3, hno, hsteps, heq⟩
    · rw [heq]
      have huid : uid ∈ st.db.users.map (·.id) := List.mem_map_of_mem (·.id) hmem
      obtain ⟨hs3, hh3⟩ := GrantSteps_sound hsteps hs huid
      have hu3 := GrantSteps_users hsteps
      obtain ⟨hsf, ⟨extra, hex, hexn⟩, hres, hh⟩ := ih ⟨db3, st.createdCount,
        if T = [] then st.grantedCount else st.grantedCount + 1, st.errorMessages⟩ hs3
      dsimp only at hex hh
      rw [hu3] at hex
      have hfu := FindUser_of_prefix hex hfind
      have hexn' : ∀ x ∈ extra, x.name ∈ u :: us ∧ userBound st.db < x.id := by
        intro x hx
        obtain ⟨h1, h2⟩ := hexn x hx
        dsimp only at h2
        rw [GrantSteps_userBound hsteps] at h2
        exact ⟨List.mem_cons_of_mem _ h1, h2⟩
      refine ⟨hsf, ⟨extra, hex, hexn'⟩, ?_, ?_⟩
      · intro n hn
        rcases List.mem_cons.mp hn with rfl | hn
        · unfold resolves; rw [hfu]
        · exact hres n hn
      · intro j s
        rw [hh, hh3]
        constructor
        · rintro ((h | ⟨rfl, hsT⟩) | ⟨hsT, n, hn, hfn⟩)
          · exact Or.inl h
          · exact Or.inr ⟨hsT, u, List.mem_cons_self _ _, hfu⟩
          · exact Or.inr ⟨hsT, n, List.mem_cons_of_mem _ hn, hfn⟩
        · rintro (h | ⟨hsT, n, hn, hfn⟩)
          · exact Or.inl (Or.inl h)
          · rcases List.mem_cons.mp hn with rfl | hn
            · rw [hfu] at hfn
              injection hfn with hfn
              exact Or.inl (Or.inr ⟨hfn.symm, hsT⟩)
            · exact Or.inr ⟨hsT, n, hn, hfn⟩
    · rw [heq]
      have hsU := withNewUser_sound hs u
      have hnid : newRowid st.db.users_seq (st.db.users.map (·.id)) ∈
          (withNewUser st.db u).users.map (·.id) := by
        simp [withNewUser]
      obtain ⟨hs3, hh3⟩ := GrantSteps_sound hsteps hsU hnid
      have hu3 := GrantSteps_users hsteps
      obtain ⟨hsf, ⟨extra, hex, hexn⟩, hres, hh⟩ := ih ⟨db3, st.createdCount + 1,
        st.grantedCount, st.errorMessages⟩ hs3
      dsimp only at hex hh
      have hfu3 : FindUser db3 u = .ok (newRowid st.db.users_seq (st.db.users.map (·.id))) := by
        have := FindUser_withNewUser st.db u hno
        rw [FindUser_eq_find] at this ⊢
        rw [hu3]
        exact this
      have hfu := FindUser_of_prefix hex hfu3
      have hex2 : (bulkGrantAddBtn.loop T us ⟨db3, st.createdCount + 1, st.grantedCount,
          st.errorMessages⟩).db.users = st.db.users ++
            (⟨newRowid st.db.users_seq (st.db.users.map (·.id)), u⟩ :: extra) := by
        rw [hex, hu3]
        simp [withNewUser]
      refine ⟨hsf, ⟨_, hex2, ?_⟩, ?_, ?_⟩
      · have hb := userBound_withNewUser st.db u
        intro x hx
        rcases List.mem_cons.mp hx with rfl | hx
        · exact ⟨List.mem_cons_self _ _, hb.1⟩
        · obtain ⟨h1, h2⟩ := hexn x hx
          dsimp only at h2
          rw [GrantSteps_userBound hsteps] at h2
          exact ⟨List.mem_cons_of_mem _ h1, by omega⟩
      · intro n hn
        rcases List.mem_cons.mp hn with rfl | hn
        · unfold resolves; rw [hfu]
        · exact hres n hn
      · intro j s
        rw [hh, hh3]
        have hsame : holdsIn (withNewUser st.db u).letters (withNewUser st.db u).user_letters j s ↔
            holdsIn st.db.letters st.db.user_letters j s := Iff.rfl
        rw [hsame]
        constructor
        · rintro ((h | ⟨rfl, hsT⟩) | ⟨hsT, n, hn, hfn⟩)
          · exact Or.inl h
          · exact Or.inr ⟨hsT, u, List.mem_cons_self _ _, hfu⟩
          · exact Or.inr ⟨hsT, n, List.mem_cons_of_mem _ hn, hfn⟩
        · rintro (h | ⟨hsT, n, hn, hfn⟩)
          · exact Or.inl (Or.inl h)
          · rcases List.mem_cons.mp hn with rfl | hn
            · rw [hfu] at hfn
              injection hfn with hfn
              exact Or.inl (Or.inr ⟨hfn.symm, hsT⟩)
            · exact Or.inr ⟨hsT, n, hn, hfn⟩

/-- C8 fails on the code: in a store where a grant row names subject id 1 before any
subject exists, the subject the batch creates receives id 1 and holds A besides the
listed letter B; and in a store where a grant row of alice names letter id 1 before
any letter exists, the letter the batch creates receives id 1 and alice, who is not
listed, comes to hold B. Both stores satisfy the constraints the engine enforces. -/
theorem bulkGrantAdd_allowSets_counterexample :
    orphanDB.Constraints ∧ letterOrphanDB.Constraints ∧
    resolves orphanDB "bob" = false ∧
    allowSet (bulkGrantAdd orphanDB ["bob"] ['B']).db "bob" = ["A", "B"] ∧
    "alice" ∉ ["bob"] ∧ allowSet letterOrphanDB "alice" = [] ∧
    allowSet (bulkGrantAdd letterOrphanDB ["bob"] ['B']).db "alice" = ["B"] :=
  ⟨⟨by decide, by decide, by decide, by decide, by decide⟩,
    ⟨by decide, by decide, by decide, by decide, by decide⟩,
    by decide, by decide, by decide, by decide, by decide⟩

/-- C8 as amended: on a store whose ids are unique and in which no grant row names a
subject id or a letter id that is yet to be handed out, after the grant-or-create
loop a listed name resolves and its allow-set is its allow-set before (empty when
it did not resolve) united with the listed letters, so a subject the batch created
holds exactly the listed letters; a name that is not listed resolves as before and
keeps its allow-set. -/
theorem bulkGrantAdd_allowSets (db : DB) (users : List String) (T : List Char) (n : String)
    (hc : db.Constraints) (hr : db.RefsAssigned) :
    (n ∈ users →
      resolves (bulkGrantAdd db users T).db n = true ∧
      (∀ s, s ∈ allowSet (bulkGrantAdd db users T).db n ↔
        s ∈ allowSet db n ∨ s ∈ T.map String.singleton) ∧
      (resolves db n = false →
        ∀ s, s ∈ allowSet (bulkGrantAdd db users T).db n ↔ s ∈ T.map String.singleton)) ∧
    (n ∉ users →
      FindUser (bulkGrantAdd db users T).db n = FindUser db n ∧
      ∀ s, s ∈ allowSet (bulkGrantAdd db users T).db n ↔ s ∈ allowSet db n) := by
  have hs := DB.Sound.of_schema hc hr
  obtain ⟨hsf, ⟨extra, hex, hexn⟩, hres, hh⟩ :=
    bulkGrantAdd_sound_aux T users ⟨db, 0, 0, []⟩ hs
  dsimp only at hex hh
  unfold bulkGrantAdd
  generalize bulkGrantAddBtn.loop T users ⟨db, 0, 0, []⟩ = fin at hsf hex hres hh
  -- two rows of the final store with the same id are the same row
  have hrow : ∀ {x y : UserRow}, x ∈ fin.db.users → y ∈ fin.db.users → x.id = y.id → x = y :=
    fun hx hy hxy => List.inj_on_of_nodup_map hsf.users_id hx hy hxy
  have hsub : ∀ x ∈ db.users, x ∈ fin.db.users := by
    intro x hx
    rw [hex]
    exact List.mem_append_left _ hx
  constructor
  · intro hn
    have hrn := hres n hn
    have hmain : ∀ s, s ∈ allowSet fin.db n ↔ s ∈ allowSet db n ∨ s ∈ T.map String.singleton := by
      intro s
      obtain ⟨x, hx, hxn⟩ := (resolves_iff _ _).mp hrn
      cases hf : FindUser fin.db n with
      | error e => exact absurd hxn ((FindUser_error hf).2 x hx)
      | ok id =>
        rw [mem_allowSet, mem_allowSet]
        simp only [hf, Except.ok.injEq, exists_eq_left']
        rw [hh]
        have hT : (s ∈ T.map String.singleton ∧ ∃ m ∈ users, FindUser fin.db m = .ok id) ↔
            s ∈ T.map String.singleton := ⟨fun h => h.1, fun h => ⟨h, n, hn, hf⟩⟩
        rw [hT]
        apply or_congr_left
        cases hf0 : FindUser db n with
        | ok id0 =>
          have := FindUser_of_prefix hex hf0
          rw [hf] at this
          injection this with this
          subst this
          constructor
          · intro h
            exact ⟨_, rfl, h⟩
          · rintro ⟨id1, he, h⟩
            injection he with he
            subst he
            exact h
        | error e =>
          constructor
          · rintro ⟨g, hg, hgj, -⟩
            have hle := hs.user_ref g hg
            rw [hgj] at hle
            have hmem := FindUser_ok hf
            rw [hex] at hmem
            rcases List.mem_append.mp hmem with hmem | hmem
            · exact absurd rfl ((FindUser_error hf0).2 _ hmem)
            · have hlt := (hexn _ hmem).2
              dsimp only at hlt
              omega
          · rintro ⟨id1, he, -⟩
            cases he
    refine ⟨hrn, hmain, ?_⟩
    intro hnot s
    rw [hmain s]
    have hempty : s ∉ allowSet db n := by
      rw [mem_allowSet]
      rintro ⟨id, hid, -⟩
      unfold resolves at hnot
      rw [hid] at hnot
      cases hnot
    simp [hempty]
  · intro hn
    have hfind : FindUser fin.db n = FindUser db n := by
      cases hf0 : FindUser db n with
      | ok id0 => exact FindUser_of_prefix hex hf0
      | error e =>
        obtain ⟨he, hno⟩ := FindUser_error hf0
        subst he
        apply FindUser_of_missing
        intro x hx hxn
        rw [hex] at hx
        rcases List.mem_append.mp hx with hx | hx
        · exact hno x hx hxn
        · exact hn (hxn ▸ (hexn x hx).1)
    refine ⟨hfind, fun s => ?_⟩
    rw [mem_allowSet, mem_allowSet, hfind]
    apply exists_congr
    intro id
    apply and_congr_right
    intro hid
    rw [hh]
    constructor
    · rintro (h | ⟨-, m, hm, hfm⟩)
      · exact h
      · have hfn : FindUser fin.db n = .ok id := hfind.trans hid
        have hrows : (⟨id, m⟩ : UserRow) = ⟨id, n⟩ := hrow (FindUser_ok hfm) (FindUser_ok hfn) rfl
        injection hrows with _ hmn
        exact absurd (hmn ▸ hm) hn
    · exact Or.inl

theorem bulkGrantAdd_allowSets_witness :
    pastOrphanDB.Constraints ∧ pastOrphanDB.RefsAssigned ∧ ¬ pastOrphanDB.Referential ∧
    ("carol" ∈ ["bob", "carol"] →
      resolves (bulkGrantAdd pastOrphanDB ["bob", "carol"] ['B']).db "carol" = true ∧
      (∀ s, s ∈ allowSet (bulkGrantAdd pastOrphanDB ["bob", "carol"] ['B']).db "carol" ↔
        s ∈ allowSet pastOrphanDB "carol" ∨ s ∈ ['B'].map String.singleton) ∧
      (resolves pastOrphanDB "carol" = false →
        ∀ s, s ∈ allowSet (bulkGrantAdd pastOrphanDB ["bob", "carol"] ['B']).db "carol" ↔
          s ∈ ['B'].map String.singleton)) ∧
    ("carol" ∉ ["bob", "carol"] →
      FindUser (bulkGrantAdd pastOrphanDB ["bob", "carol"] ['B']).db "carol" =
        FindUser pastOrphanDB "carol" ∧
      ∀ s, s ∈ allowSet (bulkGrantAdd pastOrphanDB ["bob", "carol"] ['B']).db "carol" ↔
        s ∈ allowSet pastOrphanDB "carol") :=
  ⟨⟨by decide, by decide, by decide, by decide, by decide⟩, ⟨by decide, by decide⟩,
    fun h => absurd (h.user_fk ⟨1, 1⟩ (by decide)) (by decide),
    bulkGrantAdd_allowSets pastOrphanDB ["bob", "carol"] ['B'] "carol"
      ⟨by decide, by decide, by decide, by decide, by decide⟩ ⟨by decide, by decide⟩⟩

end admin

/-! ## The matrix toggle -/

namespace admin

open database

theorem Grant_of_mem {db : DB} {s t : Int} (h : (⟨s, t⟩ : GrantRow) ∈ db.user_letters) :
    Grant db s t = (none, db) := by
  have hany : db.user_letters.any (fun g => g.user_id = s ∧ g.letter_id = t) = true := by
    rw [List.any_eq_true]
    exact ⟨⟨s, t⟩, h, by simp⟩
  unfold Grant execInsertOrIgnoreGrant
  rw [if_pos hany]

theorem Grant_of_not_mem {db : DB} {s t : Int} (h : (⟨s, t⟩ : GrantRow) ∉ db.user_letters) :
    Grant db s t = (none, { db with user_letters := db.user_letters ++ [⟨s, t⟩] }) := by
  have hany : ¬ db.user_letters.any (fun g => g.user_id = s ∧ g.letter_id = t) = true := by
    rw [List.any_eq_true]
    rintro ⟨g, hg, hgu⟩
    simp only [decide_eq_true_eq] at hgu
    cases g
    simp only at hgu
    obtain ⟨h1, h2⟩ := hgu
    subst h1 h2
    exact h hg
  unfold Grant execInsertOrIgnoreGrant
  rw [if_neg hany]

theorem filter_ne_row (l : List GrantRow) (s t : Int) :
    l.filter (fun g => ¬ (g.user_id = s ∧ g.letter_id = t)) =
      l.filter (fun g => !(g == (⟨s, t⟩ : GrantRow))) := by
  apply List.filter_congr
  intro g _
  have hbeq : (g == (⟨s, t⟩ : GrantRow)) = decide (g.user_id = s ∧ g.letter_id = t) := by
    cases g
    rw [Bool.eq_iff_iff, beq_iff_eq, decide_eq_true_eq, GrantRow.mk.injEq]
  rw [hbeq]
  simp

theorem holdsIn_iff_granted {letters : List LetterRow} {grants : List GrantRow}
    (hchar : (letters.map (·.char)).Nodup) {lid : Int} {c : String}
    (hl : (⟨lid, c⟩ : LetterRow) ∈ letters) (uid : Int) :
    holdsIn letters grants uid c ↔ (⟨uid, lid⟩ : GrantRow) ∈ grants := by
  constructor
  · rintro ⟨g, hg, hj, l, hl', hid, hc⟩
    have hll : l = ⟨lid, c⟩ := List.inj_on_of_nodup_map hchar hl' hl hc
    subst hll
    cases g
    simp only at hj hid
    subst hj hid
    exact hg
  · exact fun hg => holdsIn_of_granted hl hg

/-- What the toggle does on a data cell that names subject row `u` and a letter row
with a one-character value: it revokes the pair when granted and grants it otherwise. -/
theorem OnSelected_eval (db : DB) (Row Col : Nat) (u : UserRow) (lid : Int) (c : Char)
    (hname : (db.users.map (·.name)).Nodup) (hchar : (db.letters.map (·.char)).Nodup)
    (hrow : 0 < Row) (hcol : 0 < Col) (hu : db.users[Row - 1]? = some u)
    (hl : db.letters[Col - 1]? = some ⟨lid, String.singleton c⟩) :
    OnSelected db Row Col =
      some (if db.granted u.id lid then Remove db u.id lid else Grant db u.id lid) := by
  have humem : u ∈ db.users := List.getElem?_mem hu
  have hlmem : (⟨lid, String.singleton c⟩ : LetterRow) ∈ db.letters := List.getElem?_mem hl
  have hfind : FindUser db u.name = .ok u.id := by
    rw [FindUser_eq_find, find_user_of_mem hname humem]
  have hq : queryLetterId db (String.singleton c) = .ok lid := by
    have := find_letter_of_mem hchar hlmem
    simp only at this
    unfold queryLetterId
    rw [this]
  have hens : EnsureLetterExists db c = (.ok lid, db) := by
    unfold EnsureLetterExists
    simp only [hq]
  obtain ⟨ps, hps, hmem⟩ := mem_GetPermissions db u.id
  have hacc : ps.any (fun perm => perm = String.singleton c) = true ↔ db.granted u.id lid := by
    rw [List.any_eq_true]
    constructor
    · rintro ⟨x, hx, hxe⟩
      have : x = String.singleton c := of_decide_eq_true hxe
      subst this
      exact (holdsIn_iff_granted hchar hlmem u.id).mp ((hmem _).mp hx)
    · intro hg
      exact ⟨_, (hmem _).mpr ((holdsIn_iff_granted hchar hlmem u.id).mpr hg), by simp⟩
  have hu' : (db.users.map (·.name))[Row - 1]? = some u.name := by
    rw [List.getElem?_map, hu]; rfl
  have hl' : (db.letters.map (·.char))[Col - 1]? = some (String.singleton c) := by
    rw [List.getElem?_map, hl]; rfl
  have hlist : (String.singleton c).toList = [c] := rfl
  unfold OnSelected
  rw [if_pos ⟨hrow, hcol⟩]
  simp only [GetAllUsers, GetAllLetters, hu', hl', hlist, hfind, hens, hps]
  by_cases hg : db.granted u.id lid
  · rw [if_pos (hacc.mpr hg), if_pos hg]
  · rw [if_neg (fun h => hg (hacc.mp h)), if_neg hg]

/-- C11: on a data cell naming an existing subject and an existing one-character
letter, the toggle returns no error, grants the pair when it is not granted and
revokes it when it is, and touches no other pair; a second toggle on the same cell
gives back the original subjects, letters, counters and the original grant relation
(the same rows, the store being equal outright when the pair started ungranted). -/
theorem OnSelected_toggle (db : DB) (Row Col : Nat) (u : UserRow) (lid : Int) (c : Char)
    (hc : db.Constraints) (hrow : 0 < Row) (hcol : 0 < Col)
    (hu : db.users[Row - 1]? = some u)
    (hl : db.letters[Col - 1]? = some ⟨lid, String.singleton c⟩) :
    ∃ db1 db2, OnSelected db Row Col = some (none, db1) ∧
      OnSelected db1 Row Col = some (none, db2) ∧
      (db1.granted u.id lid ↔ ¬ db.granted u.id lid) ∧
      (∀ j t, ¬ (j = u.id ∧ t = lid) → (db1.granted j t ↔ db.granted j t)) ∧
      db1.users = db.users ∧ db1.letters = db.letters ∧
      db2.users = db.users ∧ db2.letters = db.letters ∧
      db2.users_seq = db.users_seq ∧ db2.letters_seq = db.letters_seq ∧
      db2.user_letters.Perm db.user_letters ∧
      (¬ db.granted u.id lid → db2 = db) := by
  have h1 := OnSelected_eval db Row Col u lid c hc.users_name hc.letters_char hrow hcol hu hl
  by_cases hg : db.granted u.id lid
  · -- granted: the first toggle revokes, the second grants again
    have hnot : (⟨u.id, lid⟩ : GrantRow) ∉
        db.user_letters.filter (fun g => ¬ (g.user_id = u.id ∧ g.letter_id = lid)) := by
      simp [List.mem_filter]
    have h2 := OnSelected_eval (Remove db u.id lid).2 Row Col u lid c hc.users_name
      hc.letters_char hrow hcol hu hl
    have hg1 : ¬ (Remove db u.id lid).2.granted u.id lid := hnot
    rw [if_pos hg] at h1
    rw [if_neg hg1, Grant_of_not_mem hnot] at h2
    refine ⟨_, _, h1, h2, ?_, ?_, rfl, rfl, rfl, rfl, rfl, rfl, ?_, fun h => absurd hg h⟩
    · exact ⟨fun h => absurd h hg1, fun h => absurd hg h⟩
    · intro j t hjt
      show (⟨j, t⟩ : GrantRow) ∈ List.filter _ db.user_letters ↔ _
      rw [List.mem_filter]
      simp only [decide_not, Bool.not_eq_true', decide_eq_false_iff_not]
      exact ⟨fun h => h.1, fun h => ⟨h, hjt⟩⟩
    · show (List.filter _ db.user_letters ++ [(⟨u.id, lid⟩ : GrantRow)]).Perm db.user_letters
      rw [filter_ne_row]
      have hone : db.user_letters.filter (fun g => g == (⟨u.id, lid⟩ : GrantRow)) =
          [⟨u.id, lid⟩] := by
        rw [List.filter_beq, List.count_eq_one_of_mem hc.user_letters_pk hg]
        rfl
      have hperm := List.filter_append_perm (fun g => !(g == (⟨u.id, lid⟩ : GrantRow)))
        db.user_letters
      simp only [Bool.not_not] at hperm
      rw [hone] at hperm
      exact hperm
  · -- not granted: the first toggle grants, the second revokes
    have hnot : (⟨u.id, lid⟩ : GrantRow) ∉ db.user_letters := hg
    have hin : (⟨u.id, lid⟩ : GrantRow) ∈ db.user_letters ++ [⟨u.id, lid⟩] := by simp
    have h2 := OnSelected_eval (Grant db u.id lid).2 Row Col u lid c
      (by rw [Grant_of_not_mem hnot]; exact hc.users_name)
      (by rw [Grant_of_not_mem hnot]; exact hc.letters_char) hrow hcol
      (by rw [Grant_of_not_mem hnot]; exact hu) (by rw [Grant_of_not_mem hnot]; exact hl)
    rw [if_neg hg] at h1
    rw [Grant_of_not_mem hnot] at h1 h2
    have hg1 : ({ db with user_letters := db.user_letters ++ [⟨u.id, lid⟩] } : DB).granted
        u.id lid := hin
    rw [if_pos hg1] at h2
    have hback : (db.user_letters ++ [(⟨u.id, lid⟩ : GrantRow)]).filter
        (fun g => ¬ (g.user_id = u.id ∧ g.letter_id = lid)) = db.user_letters := by
      rw [List.filter_append, List.filter_eq_self.mpr]
      · simp
      · intro g hgm
        simp only [decide_not, Bool.not_eq_true', decide_eq_false_iff_not]
        rintro ⟨ha, hb⟩
        cases g
        simp only at ha hb
        subst ha hb
        exact hnot hgm
    have hdb2 : (Remove { db with user_letters := db.user_letters ++ [⟨u.id, lid⟩] }
        u.id lid) = (none, db) := by
      unfold Remove execDeleteGrant
      simp only [hback]
    rw [hdb2] at h2
    refine ⟨_, _, h1, h2, ?_, ?_, rfl, rfl, rfl, rfl, rfl, rfl, List.Perm.refl _, fun _ => rfl⟩
    · exact ⟨fun _ => hg, fun _ => hg1⟩
    · intro j t hjt
      show (⟨j, t⟩ : GrantRow) ∈ db.user_letters ++ [⟨u.id, lid⟩] ↔ _
      rw [List.mem_append, List.mem_singleton]
      constructor
      · rintro (h | h)
        · exact h
        · injection h with ha hb
          exact absurd ⟨ha, hb⟩ hjt
      · exact Or.inl

theorem OnSelected_toggle_witness :
    ∃ db1 db2, OnSelected sampleDB 1 1 = some (none, db1) ∧
      OnSelected db1 1 1 = some (none, db2) ∧
      (db1.granted 1 1 ↔ ¬ sampleDB.granted 1 1) ∧
      (∀ j t, ¬ (j = 1 ∧ t = 1) → (db1.granted j t ↔ sampleDB.granted j t)) ∧
      db1.users = sampleDB.users ∧ db1.letters = sampleDB.letters ∧
      db2.users = sampleDB.users ∧ db2.letters = sampleDB.letters ∧
      db2.users_seq = sampleDB.users_seq ∧ db2.letters_seq = sampleDB.letters_seq ∧
      db2.user_letters.Perm sampleDB.user_letters ∧
      (¬ sampleDB.granted 1 1 → db2 = sampleDB) :=
  OnSelected_toggle sampleDB 1 1 ⟨1, "alice"⟩ 1 'A' sampleDB_constraints (by decide)
    (by decide) (by decide) (by decide)

end admin

/-! ## The permission synchronizer and the filter -/

namespace userapp

open database

theorem utf8ByteSize_pos_of_cons {right : String} {c : Char} {cs : List Char}
    (h : right.toList = c :: cs) : right.utf8ByteSize > 0 := by
  cases right with
  | mk data =>
    have hd : data = c :: cs := h
    subst hd
    show String.utf8ByteSize.go (c :: cs) > 0
    have := Char.utf8Size_pos c
    simp only [String.utf8ByteSize.go]
    omega

theorem load_foldl (rights : List String) (acc : Finset Char) :
    rights.foldl
      (fun accessRights right =>
        if right.utf8ByteSize > 0 then
          match right.toList with
          | char :: _ => insert char accessRights
          | [] => accessRights
        else
          accessRights) acc = acc ∪ fetchedSet rights := by
  induction rights generalizing acc with
  | nil => simp [fetchedSet]
  | cons right rights ih =>
    rw [List.foldl_cons, ih]
    cases hr : right.toList with
    | nil =>
      have hd : right.data = [] := hr
      have : fetchedSet (right :: rights) = fetchedSet rights := by
        simp [fetchedSet, List.filterMap_cons, hd]
      rw [this]
      split <;> rfl
    | cons c cs =>
      have hd : right.data = c :: cs := hr
      have : fetchedSet (right :: rights) = insert c (fetchedSet rights) := by
        simp [fetchedSet, List.filterMap_cons, hd]
      rw [this, if_pos (utf8ByteSize_pos_of_cons hr)]
      simp only
      ext x
      simp only [Finset.mem_union, Finset.mem_insert]
      tauto

theorem loadAccessRightsWith_ok (rights : List String) (tp : TextProcessor) :
    loadAccessRightsWith (.ok rights) tp = { tp with accessRights := fetchedSet rights } := by
  unfold loadAccessRightsWith
  simp only [load_foldl, Finset.empty_union]

theorem fetchedSet_singleton (F : List Char) :
    fetchedSet (F.map String.singleton) = F.toFinset := by
  unfold fetchedSet
  congr 1
  induction F with
  | nil => rfl
  | cons c cs ih =>
    rw [List.map_cons, List.filterMap_cons, ih]
    rfl

/-- C12: when the fetch succeeds, one timer run leaves the held set equal to the
fetched set (the first characters of the fetched strings, which for one-character
tokens is the token set itself) and calls `updateInterface` once if the held set
differed from it and not at all if they were equal. -/
theorem tick_fetched (tp : TextProcessor) (rights : List String) :
    (initAutoRefresh.tickWith (.ok rights) tp).1 =
      { tp with accessRights := fetchedSet rights } ∧
    (initAutoRefresh.tickWith (.ok rights) tp).2 =
      (if tp.accessRights = fetchedSet rights then 0 else 1) ∧
    (∀ F : List Char, rights = F.map String.singleton → fetchedSet rights = F.toFinset) := by
  have hmod : (fetchedSet rights).card ≠ tp.accessRights.card ∨
      (∃ char ∈ fetchedSet rights, char ∉ tp.accessRights) ↔
        ¬ tp.accessRights = fetchedSet rights := by
    constructor
    · rintro (h | ⟨c, hc, hn⟩) heq
      · exact h (by rw [heq])
      · exact hn (heq ▸ hc)
    · intro hne
      by_contra hcon
      rw [not_or] at hcon
      obtain ⟨hcard, hsub⟩ := hcon
      rw [not_not] at hcard
      have hsubset : fetchedSet rights ⊆ tp.accessRights := by
        intro c hc
        by_contra hn
        exact hsub ⟨c, hc, hn⟩
      exact hne (Finset.eq_of_subset_of_card_le hsubset (le_of_eq hcard.symm)).symm
  refine ⟨?_, ?_, fun F hF => hF ▸ fetchedSet_singleton F⟩
  · unfold initAutoRefresh.tickWith
    rw [loadAccessRightsWith_ok]
    dsimp only
    split <;> rfl
  · unfold initAutoRefresh.tickWith
    rw [loadAccessRightsWith_ok]
    dsimp only
    by_cases heq : tp.accessRights = fetchedSet rights
    · rw [if_pos heq, if_neg]
      simp only [Bool.or_eq_true, decide_eq_true_eq, bne_iff_ne, ne_eq]
      exact fun h => (hmod.mp h) heq
    · rw [if_neg heq, if_pos]
      simp only [Bool.or_eq_true, decide_eq_true_eq, bne_iff_ne, ne_eq]
      exact hmod.mpr heq

theorem tick_fetched_witness :
    (initAutoRefresh.tickWith (.ok ["A", "B"]) ⟨1, "alice", {'A'}⟩).1.accessRights =
      {'A', 'B'} ∧
    (initAutoRefresh.tickWith (.ok ["A", "B"]) ⟨1, "alice", {'A'}⟩).2 = 1 ∧
    (initAutoRefresh.tickWith (.ok ["A"]) ⟨1, "alice", {'A'}⟩).1.accessRights = {'A'} ∧
    (initAutoRefresh.tickWith (.ok ["A"]) ⟨1, "alice", {'A'}⟩).2 = 0 := by
  have h1 := tick_fetched ⟨1, "alice", {'A'}⟩ ["A", "B"]
  have h2 := tick_fetched ⟨1, "alice", {'A'}⟩ ["A"]
  refine ⟨?_, by decide, ?_, by decide⟩
  · rw [h1.1]
    exact h1.2.2 ['A', 'B'] rfl
  · rw [h2.1]
    exact h2.2.2 ['A'] rfl

/-- C14: when the fetch fails, `loadAccessRights` leaves the processor, so the held
set, as it was, and the timer run makes no call of `updateInterface`. -/
theorem tick_fetch_failed (tp : TextProcessor) (e : Error) :
    loadAccessRightsWith (.error e) tp = tp ∧
    initAutoRefresh.tickWith (.error e) tp = (tp, 0) := by
  refine ⟨rfl, ?_⟩
  unfold initAutoRefresh.tickWith loadAccessRightsWith
  simp

/-- C19: the filter returns the input with exactly the characters kept that are one
of space, newline, tab, carriage return or a member of the held set: the output is
a sublist of the input, holds only such characters, keeps every occurrence of each
of them, and filtering it again changes nothing. -/
theorem applyFilter_keeps (tp : TextProcessor) (input : String) :
    (applyFilter tp input).toList = input.toList.filter (fun c =>
      decide (c = ' ' ∨ c = '\n' ∨ c = '\t' ∨ c = '\r' ∨ c ∈ tp.accessRights)) ∧
    (applyFilter tp input).toList.Sublist input.toList ∧
    (∀ c ∈ (applyFilter tp input).toList,
      c = ' ' ∨ c = '\n' ∨ c = '\t' ∨ c = '\r' ∨ c ∈ tp.accessRights) ∧
    (∀ c, (c = ' ' ∨ c = '\n' ∨ c = '\t' ∨ c = '\r' ∨ c ∈ tp.accessRights) →
      (applyFilter tp input).toList.count c = input.toList.count c) ∧
    applyFilter tp (applyFilter tp input) = applyFilter tp input := by
  have hpred : ∀ c : Char,
      (if (c = ' ' || c = '\n' || c = '\t' || c = '\r') = true then true
        else decide (c ∈ tp.accessRights)) =
      decide (c = ' ' ∨ c = '\n' ∨ c = '\t' ∨ c = '\r' ∨ c ∈ tp.accessRights) := by
    intro c
    by_cases h1 : c = ' ' <;> by_cases h2 : c = '\n' <;> by_cases h3 : c = '\t' <;>
      by_cases h4 : c = '\r' <;> simp [h1, h2, h3, h4]
  have hlist : (applyFilter tp input).toList = input.toList.filter (fun c =>
      decide (c = ' ' ∨ c = '\n' ∨ c = '\t' ∨ c = '\r' ∨ c ∈ tp.accessRights)) := by
    unfold applyFilter
    show List.filter _ input.toList = _
    exact List.filter_congr (fun c _ => hpred c)
  refine ⟨hlist, ?_, ?_, ?_, ?_⟩
  · rw [hlist]; exact List.filter_sublist _
  · intro c hc
    rw [hlist, List.mem_filter] at hc
    exact of_decide_eq_true hc.2
  · intro c hc
    rw [hlist]
    exact List.count_filter (by simpa using hc)
  · have h2 := hlist
    unfold applyFilter at h2 ⊢
    congr 1
    show List.filter _ (List.filter _ input.toList) = _
    rw [List.filter_filter]
    apply List.filter_congr
    intro c _
    simp

end userapp

/-! ## Bulk delete, the matrix cells and the input validators -/

namespace admin

open database

theorem DeleteUser_eq (db : DB) (uid : Int) :
    DeleteUser db uid = (none,
      { db with
        users := db.users.filter (fun u => ¬ u.id = uid)
        user_letters := db.user_letters.filter (fun g => ¬ g.user_id = uid) }) := rfl

theorem bulkDelete_aux (users : List String) :
    ∀ st : DeleteState, (st.db.users.map (·.name)).Nodup →
      (bulkDeleteBtn.loop users st).successCount +
          (bulkDeleteBtn.loop users st).errorMessages.length =
        st.successCount + st.errorMessages.length + users.length ∧
      (∀ x ∈ (bulkDeleteBtn.loop users st).db.users, x ∈ st.db.users) ∧
      (∀ n ∈ users, resolves (bulkDeleteBtn.loop users st).db n = false) := by
  induction users with
  | nil => intro st _; simp [bulkDeleteBtn.loop]
  | cons u us ih =>
    intro st hnd
    cases hf : FindUser st.db u with
    | error e =>
      obtain ⟨h1, h2, h3⟩ := ih
        { st with errorMessages := st.errorMessages ++
            ["Ошибка поиска ID для \'" ++ u ++ "\': " ++ e.text] } hnd
      dsimp only at h1 h2 h3
      rw [bulkDeleteBtn.loop]
      simp only [hf]
      refine ⟨?_, h2, ?_⟩
      · rw [h1]
        simp only [List.length_append, List.length_cons, List.length_nil]
        omega
      · intro n hn
        rcases List.mem_cons.mp hn with rfl | hn
        · rw [Bool.eq_false_iff, Ne, resolves_iff]
          rintro ⟨x, hx, hxn⟩
          exact (FindUser_error hf).2 x (h2 x hx) hxn
        · exact h3 n hn
    | ok uid =>
      have hsub : (st.db.users.filter (fun x => ¬ x.id = uid)).Sublist st.db.users :=
        List.filter_sublist _
      have hnd1 : ((st.db.users.filter (fun x => ¬ x.id = uid)).map (·.name)).Nodup :=
        hnd.sublist (hsub.map _)
      obtain ⟨h1, h2, h3⟩ := ih
        { st with
          db := { st.db with
            users := st.db.users.filter (fun x => ¬ x.id = uid)
            user_letters := st.db.user_letters.filter (fun g => ¬ g.user_id = uid) }
          successCount := st.successCount + 1 } hnd1
      dsimp only at h1 h2 h3
      rw [bulkDeleteBtn.loop]
      simp only [hf, DeleteUser_eq]
      refine ⟨?_, fun x hx => hsub.subset (h2 x hx), ?_⟩
      · rw [h1, List.length_cons]
        omega
      · intro n hn
        rcases List.mem_cons.mp hn with rfl | hn
        · rw [Bool.eq_false_iff, Ne, resolves_iff]
          rintro ⟨x, hx, hxn⟩
          have hx1 := h2 x hx
          rw [List.mem_filter] at hx1
          have hrow : x = ⟨uid, n⟩ :=
            List.inj_on_of_nodup_map hnd hx1.1 (FindUser_ok hf) hxn
          subst hrow
          simp at hx1
        · exact h3 n hn

/-- C15: in a confirmed bulk delete every parsed name yields exactly one outcome, a
success or one failure message, so the two add up to the number of parsed names; the
loop runs through the whole list whatever fails to resolve, and afterwards no listed
name resolves (names being unique in the store). -/
theorem bulkDelete_outcomes (db : DB) (usersText : String)
    (hname : (db.users.map (·.name)).Nodup) :
    (bulkDelete db (parseUsers usersText)).successCount +
        (bulkDelete db (parseUsers usersText)).errorMessages.length =
      (parseUsers usersText).length ∧
    (∀ n ∈ parseUsers usersText,
      resolves (bulkDelete db (parseUsers usersText)).db n = false) ∧
    (∀ x ∈ (bulkDelete db (parseUsers usersText)).db.users, x ∈ db.users) := by
  obtain ⟨h1, h2, h3⟩ := bulkDelete_aux (parseUsers usersText) ⟨db, 0, []⟩ hname
  dsimp only at h1 h2 h3
  unfold bulkDelete
  refine ⟨?_, h3, h2⟩
  rw [h1]
  simp

theorem bulkDelete_outcomes_witness :
    (bulkDelete sampleDB (parseUsers "zed\nalice\nalice")).successCount +
        (bulkDelete sampleDB (parseUsers "zed\nalice\nalice")).errorMessages.length =
      (parseUsers "zed\nalice\nalice").length ∧
    (∀ n ∈ parseUsers "zed\nalice\nalice",
      resolves (bulkDelete sampleDB (parseUsers "zed\nalice\nalice")).db n = false) ∧
    (∀ x ∈ (bulkDelete sampleDB (parseUsers "zed\nalice\nalice")).db.users,
      x ∈ sampleDB.users) :=
  bulkDelete_outcomes sampleDB "zed\nalice\nalice" (by decide)

/-- C16: for a data cell within the listing, whatever the two store reads answer,
the cell shows the check mark exactly when the subject resolves, its permissions are
read and contain the letter; the cross exactly when both reads succeed and the
letter is not among the permissions; and the error marker exactly when the lookup
or the permission read fails. Read from the store, the check mark means that the
name resolves to a subject holding the letter. -/
theorem cell_marks (findUser : String → Except Error Int)
    (getPermissions : Int → Except Error (List String)) (db : DB)
    (users letters : List String) (Row Col : Nat) (userName letter : String)
    (hrow : 0 < Row) (hcol : 0 < Col) (hu : users[Row - 1]? = some userName)
    (hl : letters[Col - 1]? = some letter) :
    ((createUserTable.updateWith findUser getPermissions users letters Row Col).text = "✓" ↔
      ∃ id ps, findUser userName = .ok id ∧ getPermissions id = .ok ps ∧ letter ∈ ps) ∧
    ((createUserTable.updateWith findUser getPermissions users letters Row Col).text = "✗" ↔
      ∃ id ps, findUser userName = .ok id ∧ getPermissions id = .ok ps ∧ letter ∉ ps) ∧
    ((createUserTable.updateWith findUser getPermissions users letters Row Col).text = "❌" ↔
      (∃ e, findUser userName = .error e) ∨
        ∃ id e, findUser userName = .ok id ∧ getPermissions id = .error e) ∧
    ((createUserTable.update db users letters Row Col).text = "✓" ↔
      ∃ id, FindUser db userName = .ok id ∧
        holdsIn db.letters db.user_letters id letter) := by
  have hr0 : ¬ Row = 0 := by omega
  have hc0 : ¬ Col = 0 := by omega
  have key : ∀ (fu : String → Except Error Int) (gp : Int → Except Error (List String)),
      (createUserTable.updateWith fu gp users letters Row Col).text =
        match fu userName with
        | .error _ => "❌"
        | .ok id =>
          match gp id with
          | .error _ => "❌"
          | .ok ps => if letter ∈ ps then "✓" else "✗" := by
    intro fu gp
    unfold createUserTable.updateWith
    rw [if_neg (fun h => hr0 h.1), if_neg hr0, if_neg hc0]
    simp only [hu, hl]
    cases fu userName with
    | error e => rfl
    | ok id =>
      dsimp only
      cases gp id with
      | error e => rfl
      | ok ps =>
        dsimp only
        by_cases hm : letter ∈ ps
        · have hany : ps.any (fun perm => decide (perm = letter)) = true :=
            List.any_eq_true.mpr ⟨letter, hm, by simp⟩
          rw [if_pos hany, if_pos hm]
        · have hany : ¬ ps.any (fun perm => decide (perm = letter)) = true := by
            rw [List.any_eq_true]
            rintro ⟨x, hx, hxe⟩
            exact hm (of_decide_eq_true hxe ▸ hx)
          rw [if_neg hany, if_neg hm]
  have hne1 : ("❌" : String) ≠ "✓" := by decide
  have hne2 : ("❌" : String) ≠ "✗" := by decide
  have hne3 : ("✓" : String) ≠ "✗" := by decide
  refine ⟨?_, ?_, ?_, ?_⟩
  · rw [key]
    cases findUser userName with
    | error e => simp [hne1]
    | ok id =>
      dsimp only
      cases hgp : getPermissions id with
      | error e => simp [hgp, hne1]
      | ok ps =>
        by_cases hm : letter ∈ ps
        · simp [hgp, hm]
        · simp [hgp, hm, hne3.symm]
  · rw [key]
    cases findUser userName with
    | error e => simp [hne2]
    | ok id =>
      dsimp only
      cases hgp : getPermissions id with
      | error e => simp [hgp, hne2]
      | ok ps =>
        by_cases hm : letter ∈ ps
        · simp [hgp, hm, hne3]
        · simp [hgp, hm]
  · rw [key]
    cases findUser userName with
    | error e => simp
    | ok id =>
      dsimp only
      cases hgp : getPermissions id with
      | error e => simp [hgp]
      | ok ps =>
        by_cases hm : letter ∈ ps
        · simp [hgp, hm, hne1.symm]
        · simp [hgp, hm, hne2.symm]
  · unfold createUserTable.update
    rw [key]
    cases hf : FindUser db userName with
    | error e => simp [hne1]
    | ok id =>
      obtain ⟨ps, hps, hmem⟩ := mem_GetPermissions db id
      simp only [hps, Except.ok.injEq, exists_eq_left']
      by_cases hm : letter ∈ ps
      · simp [hm, (hmem letter).mp hm]
      · have : ¬ holdsIn db.letters db.user_letters id letter := fun h => hm ((hmem letter).mpr h)
        simp [hm, this, hne3.symm]

theorem cell_marks_witness :
    ((createUserTable.updateWith (FindUser sampleDB) (GetPermissions sampleDB)
        ["alice", "bob"] ["A", "B"] 1 1).text = "✓" ↔
      ∃ id ps, FindUser sampleDB "alice" = .ok id ∧ GetPermissions sampleDB id = .ok ps ∧
        "A" ∈ ps) ∧
    ((createUserTable.updateWith (FindUser sampleDB) (GetPermissions sampleDB)
        ["alice", "bob"] ["A", "B"] 1 1).text = "✗" ↔
      ∃ id ps, FindUser sampleDB "alice" = .ok id ∧ GetPermissions sampleDB id = .ok ps ∧
        "A" ∉ ps) ∧
    ((createUserTable.updateWith (FindUser sampleDB) (GetPermissions sampleDB)
        ["alice", "bob"] ["A", "B"] 1 1).text = "❌" ↔
      (∃ e, FindUser sampleDB "alice" = .error e) ∨
        ∃ id e, FindUser sampleDB "alice" = .ok id ∧ GetPermissions sampleDB id = .error e) ∧
    ((createUserTable.update sampleDB ["alice", "bob"] ["A", "B"] 1 1).text = "✓" ↔
      ∃ id, FindUser sampleDB "alice" = .ok id ∧
        holdsIn sampleDB.letters sampleDB.user_letters id "A") :=
  cell_marks (FindUser sampleDB) (GetPermissions sampleDB) sampleDB ["alice", "bob"] ["A", "B"]
    1 1 "alice" "A" (by decide) (by decide) rfl rfl

end admin

/-! ## The validators and the outcome counts -/

namespace admin

open database

theorem validateUserList_loop_none (lines : List String) :
    validateUserList.loop lines = none ↔
      ∀ line ∈ lines, (strings.TrimSpace line).utf8ByteSize ≤ 256 := by
  induction lines with
  | nil => simp [validateUserList.loop]
  | cons line lines ih =>
    rw [validateUserList.loop]
    simp only [List.mem_cons, forall_eq_or_imp]
    by_cases hempty : strings.TrimSpace line = ""
    · rw [if_pos hempty, ih, hempty]
      exact ⟨fun h => ⟨by decide, h⟩, fun h => h.2⟩
    · rw [if_neg hempty]
      by_cases hlong : (strings.TrimSpace line).utf8ByteSize > 256
      · rw [if_pos hlong]
        constructor
        · intro h; cases h
        · intro h; omega
      · rw [if_neg hlong, ih]
        exact ⟨fun h => ⟨by omega, h⟩, fun h => h.2⟩

/-- What the code of `validateUserList` decides: a text is accepted exactly when no
trimmed line is longer than 256 bytes. -/
theorem validateUserList_bytes (input : String) :
    validateUserList input = none ↔
      ∀ line ∈ strings.Split input '\n', (strings.TrimSpace line).utf8ByteSize ≤ 256 := by
  unfold validateUserList
  exact validateUserList_loop_none _

set_option maxRecDepth 100000 in
/-- C13 fails on the code: a single name of 129 Cyrillic letters has 129 characters,
no more than 256, yet it measures 258 bytes and the whole text is rejected. -/
theorem validateUserList_cyrillicLine :
    parseUsers cyrillicLine = [cyrillicLine] ∧
    cyrillicLine.length = 129 ∧
    cyrillicLine.utf8ByteSize = 258 ∧
    (validateUserList cyrillicLine).isSome = true := by
  decide

theorem IsLetter_latin1 (letterTable : Char → Bool) (c : Char) (h : c.toNat ≤ 0xff) :
    unicode.IsLetter letterTable c = unicode.latin1Letter c := by
  unfold unicode.IsLetter
  rw [if_pos h]

theorem IsLetter_not_separator (letterTable : Char → Bool) (c : Char)
    (h : unicode.IsLetter letterTable c = true) :
    c ≠ ' ' ∧ c ≠ ',' ∧ c ≠ ';' ∧ c ≠ '\n' ∧ c ≠ '\t' := by
  refine ⟨?_, ?_, ?_, ?_, ?_⟩ <;>
  · rintro rfl
    rw [IsLetter_latin1 _ _ (by decide)] at h
    revert h
    decide

/-- C17 fails on the code: a text of two letters separated by a tab is made only of
alphabetic characters and white space, `parseLetters` reads the two letters from
it, yet `validateLetters` rejects it. -/
theorem validateLetters_tab_counterexample :
    parseLetters "A\tB" = ['A', 'B'] ∧
    (validateLetters unicode.cyrillicTable "A\tB").isSome = true ∧
    (validateLetters unicode.cyrillicTable "A\nB").isSome = true := by
  decide

/-- C17 as amended: `validateLetters` accepts exactly the texts made only of letters,
spaces, commas and semicolons (a tab or a newline makes it reject), and for every
accepted text `parseLetters` returns exactly the letters of the text, in input
order, every separator discarded. -/
theorem validateLetters_parseLetters (letterTable : Char → Bool) (input : String) :
    (validateLetters letterTable input = none ↔
      ∀ c ∈ input.toList,
        c = ' ' ∨ c = ',' ∨ c = ';' ∨ unicode.IsLetter letterTable c = true) ∧
    (validateLetters letterTable input = none →
      parseLetters input = input.toList.filter (unicode.IsLetter letterTable)) := by
  have hacc : validateLetters letterTable input = none ↔
      ∀ c ∈ input.toList,
        c = ' ' ∨ c = ',' ∨ c = ';' ∨ unicode.IsLetter letterTable c = true := by
    unfold validateLetters
    constructor
    · intro h
      split at h
      · rename_i hall
        rw [List.all_eq_true] at hall
        intro c hc
        have := hall c hc
        by_cases h1 : c = ' '
        · exact Or.inl h1
        · by_cases h2 : c = ','
          · exact Or.inr (Or.inl h2)
          · by_cases h3 : c = ';'
            · exact Or.inr (Or.inr (Or.inl h3))
            · right; right; right
              simpa [h1, h2, h3] using this
      · cases h
    · intro h
      rw [if_pos]
      rw [List.all_eq_true]
      intro c hc
      rcases h c hc with h1 | h1 | h1 | h1 <;> simp [h1]
  refine ⟨hacc, fun hv => ?_⟩
  have hall := hacc.mp hv
  have hfilter : input.toList.filter
      (fun char => char ≠ ' ' && char ≠ ',' && char ≠ ';' && char ≠ '\n' && char ≠ '\t') =
      input.toList.filter (unicode.IsLetter letterTable) := by
    apply List.filter_congr
    intro c hc
    cases hl : unicode.IsLetter letterTable c with
    | true =>
      obtain ⟨h1, h2, h3, h4, h5⟩ := IsLetter_not_separator letterTable c hl
      simp [h1, h2, h3, h4, h5]
    | false =>
      rcases hall c hc with h1 | h1 | h1 | h1
      · simp [h1]
      · simp [h1]
      · simp [h1]
      · rw [hl] at h1; cases h1
  unfold parseLetters
  by_cases hemp : input = ""
  · subst hemp
    rfl
  · rw [if_pos hemp, hfilter]

theorem validateLetters_parseLetters_witness :
    validateLetters unicode.cyrillicTable "A, я;Z" = none ∧
    parseLetters "A, я;Z" = ['A', 'я', 'Z'] := by
  have h := validateLetters_parseLetters unicode.cyrillicTable "A, я;Z"
  have hv : validateLetters unicode.cyrillicTable "A, я;Z" = none := by decide
  refine ⟨hv, ?_⟩
  rw [h.2 hv]
  decide

theorem bulkGrantAdd_no_letters (users : List String) :
    ∀ st : GrantAddState,
      (bulkGrantAddBtn.loop [] users st).grantedCount = st.grantedCount ∧
      (bulkGrantAddBtn.loop [] users st).createdCount = st.createdCount +
        (users.toFinset.filter (fun u => resolves st.db u = false)).card ∧
      (bulkGrantAddBtn.loop [] users st).errorMessages = st.errorMessages := by
  induction users with
  | nil => intro st; simp [bulkGrantAddBtn.loop]
  | cons u us ih =>
    intro st
    rcases bulkGrantAdd_cons [] u us st with
      ⟨uid, db3, hmem, -, hsteps, heq⟩ | ⟨db3, hno, hsteps, heq⟩
    · rw [heq]
      obtain ⟨h1, h2, h3⟩ := ih ⟨db3, st.createdCount,
        if ([] : List Char) = [] then st.grantedCount else st.grantedCount + 1, st.errorMessages⟩
      dsimp only at h1 h2 h3
      have hres : resolves st.db u = true := (resolves_iff _ _).mpr ⟨_, hmem, rfl⟩
      have hset : (u :: us).toFinset.filter (fun v => resolves st.db v = false) =
          us.toFinset.filter (fun v => resolves db3 v = false) := by
        ext v
        simp only [List.toFinset_cons, Finset.mem_filter, Finset.mem_insert, List.mem_toFinset,
          resolves_of_users_eq (GrantSteps_users hsteps)]
        constructor
        · rintro ⟨rfl | hv, hr⟩
          · rw [hres] at hr; cases hr
          · exact ⟨hv, hr⟩
        · rintro ⟨hv, hr⟩
          exact ⟨Or.inr hv, hr⟩
      rw [hset]
      exact ⟨by rw [h1]; simp, h2, h3⟩
    · rw [heq]
      obtain ⟨h1, h2, h3⟩ := ih ⟨db3, st.createdCount + 1, st.grantedCount, st.errorMessages⟩
      dsimp only at h1 h2 h3
      have hres : resolves st.db u = false := by
        rw [Bool.eq_false_iff, Ne, resolves_iff]
        rintro ⟨x, hx, hn⟩
        exact hno x hx hn
      have hset : (u :: us).toFinset.filter (fun v => resolves st.db v = false) =
          insert u (us.toFinset.filter (fun v => resolves db3 v = false)) := by
        ext v
        simp only [List.toFinset_cons, Finset.mem_filter, Finset.mem_insert, List.mem_toFinset,
          resolves_withNewUser_steps hsteps, Bool.or_eq_false_iff, decide_eq_false_iff_not]
        constructor
        · rintro ⟨rfl | hv, hr⟩
          · exact Or.inl rfl
          · by_cases hvu : v = u
            · exact Or.inl hvu
            · exact Or.inr ⟨hv, hr, hvu⟩
        · rintro (rfl | ⟨hv, hr, -⟩)
          · exact ⟨Or.inl rfl, hres⟩
          · exact ⟨Or.inr hv, hr⟩
      have hnot : u ∉ us.toFinset.filter (fun v => resolves db3 v = false) := by
        simp [resolves_withNewUser_steps hsteps]
      rw [hset, Finset.card_insert_of_not_mem hnot]
      exact ⟨h1, by rw [h2]; omega, h3⟩

/-- C18 fails on the code: with an empty letter text the loop still runs, and alice,
who exists, is neither created nor granted nor reported as failed. -/
theorem bulkGrantAdd_outcomes_counterexample :
    parseUsers "alice" = ["alice"] ∧ parseLetters "" = [] ∧
    (bulkGrantAdd sampleDB (parseUsers "alice") (parseLetters "")).createdCount = 0 ∧
    (bulkGrantAdd sampleDB (parseUsers "alice") (parseLetters "")).grantedCount = 0 ∧
    (bulkGrantAdd sampleDB (parseUsers "alice") (parseLetters "")).errorMessages = [] := by
  decide

/-- C18 as amended: without storage failure the loop records no failure and counts
as created the distinct parsed names that did not resolve; when the letter list is
not empty every other parsed subject is counted as granted, so that created, granted
and failed add up to the number of parsed subjects; when the letter list is empty
nobody is counted as granted, and a subject that already exists has no outcome. -/
theorem bulkGrantAdd_outcomes (db : DB) (usersText lettersText : String) :
    (bulkGrantAdd db (parseUsers usersText) (parseLetters lettersText)).errorMessages = [] ∧
    (bulkGrantAdd db (parseUsers usersText) (parseLetters lettersText)).createdCount =
      ((parseUsers usersText).toFinset.filter (fun u => resolves db u = false)).card ∧
    (parseLetters lettersText ≠ [] →
      (bulkGrantAdd db (parseUsers usersText) (parseLetters lettersText)).createdCount +
        (bulkGrantAdd db (parseUsers usersText) (parseLetters lettersText)).grantedCount +
        (bulkGrantAdd db (parseUsers usersText)
          (parseLetters lettersText)).errorMessages.length = (parseUsers usersText).length) ∧
    (parseLetters lettersText = [] →
      (bulkGrantAdd db (parseUsers usersText) (parseLetters lettersText)).grantedCount = 0) := by
  by_cases hT : parseLetters lettersText = []
  · obtain ⟨h1, h2, h3⟩ := bulkGrantAdd_no_letters (parseUsers usersText) ⟨db, 0, 0, []⟩
    dsimp only at h1 h2 h3
    rw [hT]
    unfold bulkGrantAdd
    exact ⟨h3, by rw [h2]; simp, fun h => absurd rfl h, fun _ => h1⟩
  · obtain ⟨h1, h2, h3⟩ := bulkGrantAdd_counts_aux (parseLetters lettersText) hT
      (parseUsers usersText) ⟨db, 0, 0, []⟩
    dsimp only at h1 h2 h3
    unfold bulkGrantAdd
    refine ⟨h3, by rw [h1]; simp, fun _ => ?_, fun h => absurd h hT⟩
    rw [h3]
    simp only [List.length_nil]
    omega

theorem bulkGrantAdd_outcomes_witness :
    parseLetters "A B" ≠ [] ∧
    (bulkGrantAdd aliceDB (parseUsers "alice\n\nbob") (parseLetters "A B")).createdCount +
      (bulkGrantAdd aliceDB (parseUsers "alice\n\nbob") (parseLetters "A B")).grantedCount +
      (bulkGrantAdd aliceDB (parseUsers "alice\n\nbob")
        (parseLetters "A B")).errorMessages.length = (parseUsers "alice\n\nbob").length :=
  ⟨by decide, (bulkGrantAdd_outcomes aliceDB "alice\n\nbob" "A B").2.2.1 (by decide)⟩

end admin
